import Mathlib

/-!
Shallow embedding of the stack orchestration engine of docker-pyo3
(`src/stack/definition.rs`, `src/stack/stack.rs`, `src/stack/mod.rs`,
`src/stack/service_simple.rs`, `src/stack/service.rs`).

Modelling conventions:
* `IndexMap` (insertion-ordered map) is modelled as an association list
  `List (String × α)`; insertion keeps the position of an existing key and
  appends fresh keys; `IndexMap::remove` is `swap_remove` (it moves the last
  entry into the removed slot).
* `std::collections::HashMap` iteration order is unspecified, so every place
  the Rust code iterates over a `HashMap` the embedding takes the iteration
  order as an explicit parameter (a list of keys); theorems quantify over all
  permutations of the genuine key set.
* Error messages built with `format!` are modelled as structured values whose
  constructor and arguments determine the text; the doc comment of each
  constructor records the exact format string.
* Docker daemon calls are modelled by an oracle record of functions
  returning `Except`; machine state outside the process is not modelled.
-/

namespace DockerPyo3

/-- Structured form of the `DockerPyo3Error::Configuration` messages produced
in `src/stack/definition.rs` and `src/stack/stack.rs`. -/
inductive ConfigMsg where
  /-- format string: `Service '{name}' depends on '{dep}' which is not defined` -/
  | missingDep (service dep : String)
  /-- exact text: `Circular dependency detected in services` -/
  | circularDependency
  /-- format string: `Service '{name}' not found` -/
  | serviceNotFound (service : String)
  /-- format string: `Service '{name}' has no image defined` -/
  | noImage (service : String)
  deriving DecidableEq

/-- The `DockerPyo3Error` variant used by the modelled code in
`definition.rs` (the file only ever constructs `Configuration`). -/
inductive DockerPyo3Error where
  | Configuration (msg : ConfigMsg)
  deriving DecidableEq

/-- `docker_compose_types::Service`, restricted to the fields the modelled
code reads: `image` and `depends_on`.  `DependsOnOptions::Simple` and
`::Advanced` both contribute their dependency names in listed order, which is
all `build_deployment_order` extracts from them. -/
structure ComposeService where
  image : Option String := none
  depends_on : List String := []
  deriving DecidableEq

/-- `docker_compose_types::Compose`, restricted to the fields the modelled
code reads.  `services` values are `Option<Service>` exactly as in
`docker-compose-types`; for `networks` and `volumes` the code only tests
whether the per-entry config object is present (`Some config`), so the
config payload is modelled as `Bool` (present or not).  A `None` map and an
empty map behave identically in the code, so both are the empty list. -/
structure Compose where
  services : List (String × Option ComposeService) := []
  networks : List (String × Bool) := []
  volumes : List (String × Bool) := []
  deriving DecidableEq

/-- `RuntimeConfig` from `definition.rs`; `scale_policies` maps a service to
its `ScalePolicy.replicas` (the `strategy` field is never read by the
modelled code). -/
structure RuntimeConfig where
  deployment_order : List String := []
  health_check_timeout : Nat := 30
  scale_policies : List (String × Nat) := []
  deriving DecidableEq

/-- `StackDefinition` from `definition.rs`. -/
structure StackDefinition where
  name : String
  compose : Compose := {}
  runtime_config : RuntimeConfig := {}
  deriving DecidableEq

/-- Association-list lookup (the semantics of `IndexMap::get` /
`HashMap::get` on our list model): first binding of the key wins. -/
def alookup {α : Type} (k : String) : List (String × α) → Option α
  | [] => none
  | p :: t => if k = p.1 then some p.2 else alookup k t

/-- `IndexMap::insert`: replace in place if the key exists, else append. -/
def indexMapInsert {α : Type} (m : List (String × α)) (k : String) (v : α) :
    List (String × α) :=
  if m.any (fun p => p.1 == k) then m.map (fun p => if p.1 == k then (k, v) else p)
  else m ++ [(k, v)]

/-- Remove the element at index `i` by moving the last element into its
place (`IndexMap::swap_remove`, which `IndexMap::remove` aliases). -/
def swapRemoveIdx {α : Type} (m : List α) (i : Nat) : List α :=
  match m.getLast? with
  | none => []
  | some last => (m.set i last).dropLast

/-- `StackDefinition::get_service_names`: the service keys in map order. -/
def StackDefinition.get_service_names (d : StackDefinition) : List String :=
  d.compose.services.map Prod.fst

/-- `StackDefinition::get_service`: `services.get(name).and_then(|s| s.as_ref())`. -/
def StackDefinition.get_service (d : StackDefinition) (n : String) : Option ComposeService :=
  (alookup n d.compose.services).bind id

/-- The dependency list `dependencies[name]` that `build_deployment_order`
extracts for a service: its `depends_on` names in order ([] when the service
is absent or has no `depends_on`). -/
def StackDefinition.depsOf (d : StackDefinition) (n : String) : List String :=
  match d.get_service n with
  | some s => s.depends_on
  | none => []

/-- `StackDefinition::set_service`: insert or update a service. -/
def StackDefinition.set_service (d : StackDefinition) (n : String) (s : ComposeService) :
    StackDefinition :=
  { d with compose := { d.compose with services := indexMapInsert d.compose.services n (some s) } }

/-- `StackDefinition::remove_service`: `services.remove(name).flatten()`
(`IndexMap::remove` = `swap_remove`); returns the updated definition and the
removed service.  Note it does not touch `runtime_config`. -/
def StackDefinition.remove_service (d : StackDefinition) (n : String) :
    StackDefinition × Option ComposeService :=
  match d.compose.services.findIdx? (fun p => p.1 == n) with
  | none => (d, none)
  | some i =>
      (({ d with compose := { d.compose with
            services := swapRemoveIdx d.compose.services i } }),
       (d.compose.services.get? i).bind (fun p => p.2))

/-- The validation pass of `build_deployment_order`: scanning services in map
order and each service's `depends_on` in order, the first dependency that is
not a defined service, together with the referencing service. -/
def StackDefinition.findUndefinedDep (d : StackDefinition) : Option (String × String) :=
  d.get_service_names.findSome? (fun n =>
    ((d.depsOf n).find? (fun dep => !(d.get_service_names.contains dep))).map
      (fun dep => (n, dep)))

/-- `dependents[s]`: the services depending on `s`, with one occurrence per
edge, in the order `build_deployment_order` pushes them (services in map
order, each service's `depends_on` occurrences of `s` counted). -/
def StackDefinition.dependentsOf (d : StackDefinition) (s : String) : List String :=
  d.get_service_names.flatMap (fun n => List.replicate ((d.depsOf n).count s) n)

/-- State of Kahn's algorithm inside `build_deployment_order`: the mutable
`in_degree` map (total function, services outside the map read as their
dependency count 0), the FIFO `queue`, and the `result` vector. -/
structure KahnState where
  inDeg : String → Nat
  queue : List String
  result : List String

/-- One iteration of the inner `for dependent in &dependents[&service]` loop:
decrement the dependent's in-degree and enqueue it when it reaches zero. -/
def processDependent (st : KahnState) (dep : String) : KahnState :=
  let nd := st.inDeg dep - 1
  { inDeg := fun x => if x = dep then nd else st.inDeg x
    queue := if nd = 0 then st.queue ++ [dep] else st.queue
    result := st.result }

/-- Process every dependent of a just-dequeued service. -/
def kahnStep (d : StackDefinition) (st : KahnState) (s : String) : KahnState :=
  (d.dependentsOf s).foldl processDependent st

/-- The `while let Some(service) = queue.pop_front()` loop.  Each iteration
dequeues one service and appends it to `result`.  Fuel bounds the number of
iterations; since every service is enqueued at most once, the loop performs
at most `|services|` iterations, so the caller passes that as fuel and the
loop always drains the queue before the fuel runs out. -/
def kahnLoop (d : StackDefinition) : Nat → KahnState → List String
  | 0, st => st.result
  | Nat.succ fuel, st =>
    match st.queue with
    | [] => st.result
    | s :: rest => kahnLoop d fuel (kahnStep d { st with queue := rest, result := st.result ++ [s] } s)

/-- `in_degree[name] = dependencies[name].len()`. -/
def initialInDegree (d : StackDefinition) : String → Nat :=
  fun n => (d.depsOf n).length

/-- Seeding loop `for (name, &degree) in &in_degree { if degree == 0 {...} }`:
`σ` is the iteration order of the `in_degree` `HashMap` (a permutation of the
service names; Rust leaves the order unspecified and randomises it per map
instance). -/
def initialQueue (σ : List String) (d : StackDefinition) : List String :=
  σ.filter (fun n => initialInDegree d n == 0)

/-- `StackDefinition::build_deployment_order`, state-passing: returns the
definition after the call together with the error, if any.  `σ` is the
`HashMap` iteration order used to seed the queue (see `initialQueue`).  Note
that every error path leaves the definition untouched (the assignment to
`runtime_config.deployment_order` is the last statement), and that an empty
service map returns `Ok` early without touching the stored order. -/
def StackDefinition.build_deployment_order (σ : List String) (d : StackDefinition) :
    StackDefinition × Option DockerPyo3Error :=
  let names := d.get_service_names
  if names.isEmpty then (d, none)
  else
    match d.findUndefinedDep with
    | some nd => (d, some (.Configuration (.missingDep nd.1 nd.2)))
    | none =>
      let result := kahnLoop d names.length
        { inDeg := initialInDegree d, queue := initialQueue σ d, result := [] }
      if result.length ≠ names.length then (d, some (.Configuration .circularDependency))
      else ({ d with runtime_config := { d.runtime_config with deployment_order := result } }, none)

/-- `Pyo3Stack::add_service` (stack.rs): insert the built service, then
rebuild the deployment order; the insertion is not undone when the rebuild
fails.  The `ServiceBuilder` argument is represented by the `ComposeService`
its `build()` returns. -/
def StackDefinition.add_service (σ : List String) (d : StackDefinition)
    (n : String) (s : ComposeService) : StackDefinition × Option DockerPyo3Error :=
  (d.set_service n s).build_deployment_order σ

/-- The `depends_on` edge relation of a definition: `a` depends on `b`. -/
def StackDefinition.DependsOn (d : StackDefinition) (a b : String) : Prop :=
  b ∈ d.depsOf a

instance (d : StackDefinition) (a b : String) : Decidable (d.DependsOn a b) := by
  unfold StackDefinition.DependsOn; exact inferInstance

/-- The `depends_on` graph has a cycle: some service reaches itself through a
nonempty chain of `depends_on` edges. -/
def StackDefinition.HasCycle (d : StackDefinition) : Prop :=
  ∃ v, Relation.TransGen d.DependsOn v v

/-- The `depends_on` graph is acyclic. -/
def StackDefinition.Acyclic (d : StackDefinition) : Prop := ¬ d.HasCycle

/-- Every dependency referenced by a service is itself a defined service
(the property the validation pass of `build_deployment_order` checks). -/
def StackDefinition.WellFormedDeps (d : StackDefinition) : Prop :=
  ∀ n ∈ d.get_service_names, ∀ b ∈ d.depsOf n, b ∈ d.get_service_names

instance (d : StackDefinition) : Decidable d.WellFormedDeps := by
  unfold StackDefinition.WellFormedDeps
  exact inferInstance

/-- `b` appears strictly before `a` in `order`. -/
def appearsBefore (order : List String) (b a : String) : Prop :=
  ∃ l₁ l₂, order = l₁ ++ a :: l₂ ∧ b ∈ l₁

/-! ### stack.rs: runtime state, orchestration (`up`, `down`) -/

/-- `StackStatus` (stack.rs and mod.rs declare identical enums). -/
inductive StackStatus where
  | NotDeployed
  | Deploying
  | Running
  | PartiallyRunning
  | Stopped
  | Failed
  deriving DecidableEq

/-- `StackState` from stack.rs: the runtime resource tracking of a deployed
stack.  The `HashMap`s are association lists; all access is by key, so their
order never matters. -/
structure StackState where
  containers : List (String × List String) := []
  networks : List (String × String) := []
  volumes : List (String × String) := []
  status : StackStatus := .NotDeployed
  deriving DecidableEq

/-- Structured `PyValueError` messages raised by the modelled mod.rs code. -/
inductive PyValueMsg where
  /-- format string: `Service '{name}' already registered in stack '{stack}'` -/
  | alreadyRegistered (service stack : String)
  /-- format string: `Service '{name}' not found in stack` -/
  | serviceNotFoundInStack (service : String)
  /-- format string: `Service '{name}' not found` -/
  | serviceNotFound (service : String)
  /-- format string: `Service '{name}' has no image` -/
  | serviceHasNoImage (service : String)
  deriving DecidableEq

/-- A Python-level error (`PyErr`) as raised by the modelled runtime
methods: a converted `DockerPyo3Error::Configuration`, a docker daemon
error carrying the daemon's message, or a `PyValueError`. -/
inductive PyError where
  | configuration (m : ConfigMsg)
  | docker (m : String)
  | valueError (m : PyValueMsg)
  deriving DecidableEq

/-- `PyErr::from` on the modelled `DockerPyo3Error`. -/
def pyErrOf : DockerPyo3Error → PyError
  | .Configuration m => .configuration m

/-- Oracle for docker daemon calls: each field models one fallible client
call, mapping its arguments to the daemon's answer.  `createNetwork`
collapses `networks().create(..)` and the subsequent `.id()`;
`createContainer` collapses `containers().create(..)` and the subsequent
`.id()` (both are sequenced with `?` in the source, so a failure of either
is one propagated error). -/
structure DockerOracle where
  createNetwork : String → Except String String
  createVolume : String → Except String String
  createContainer : String → String → Except String String
  startContainer : String → Except String Unit
  getContainer : String → Except String Unit
  stopContainer : String → Except String Unit
  removeContainer : String → Except String Unit
  getNetwork : String → Except String Unit
  deleteNetwork : String → Except String Unit
  getVolume : String → Except String Unit
  deleteVolume : String → Except String Unit

/-- `Pyo3Stack` from stack.rs (the docker handle is replaced by the oracle
passed to each operation). -/
structure Pyo3Stack where
  definition : StackDefinition
  state : StackState := {}
  deriving DecidableEq

/-- `Pyo3Stack::add_service`: build the service, insert it, then rebuild the
deployment order; the insertion is not undone when the rebuild fails. -/
def Pyo3Stack.add_service (σ : List String) (s : Pyo3Stack) (n : String)
    (svc : ComposeService) : Pyo3Stack × Option PyError :=
  let r := StackDefinition.add_service σ s.definition n svc
  ({ s with definition := r.1 }, r.2.map pyErrOf)

/-- The `for (network_name, network_config) in networks` loop of
`create_networks`: create each configured network (namespaced
`{stack}_{network}`), recording logical name ↦ runtime id; the first
creation error aborts the loop. -/
def createNetworksGo (o : DockerOracle) (stackName : String) :
    List (String × Bool) → StackState → StackState × Option PyError
  | [], st => (st, none)
  | (networkName, hasCfg) :: rest, st =>
    if hasCfg then
      match o.createNetwork (stackName ++ "_" ++ networkName) with
      | .error e => (st, some (.docker e))
      | .ok nid =>
          createNetworksGo o stackName rest
            { st with networks := indexMapInsert st.networks networkName nid }
    else createNetworksGo o stackName rest st

/-- `Pyo3Stack::create_networks`. -/
def Pyo3Stack.create_networks (o : DockerOracle) (s : Pyo3Stack) :
    Pyo3Stack × Option PyError :=
  match createNetworksGo o s.definition.name s.definition.compose.networks s.state with
  | (st, e) => ({ s with state := st }, e)

/-- The loop of `create_volumes`, analogous to `createNetworksGo`. -/
def createVolumesGo (o : DockerOracle) (stackName : String) :
    List (String × Bool) → StackState → StackState × Option PyError
  | [], st => (st, none)
  | (volumeName, hasCfg) :: rest, st =>
    if hasCfg then
      match o.createVolume (stackName ++ "_" ++ volumeName) with
      | .error e => (st, some (.docker e))
      | .ok vid =>
          createVolumesGo o stackName rest
            { st with volumes := indexMapInsert st.volumes volumeName vid }
    else createVolumesGo o stackName rest st

/-- `Pyo3Stack::create_volumes`. -/
def Pyo3Stack.create_volumes (o : DockerOracle) (s : Pyo3Stack) :
    Pyo3Stack × Option PyError :=
  match createVolumesGo o s.definition.name s.definition.compose.volumes s.state with
  | (st, e) => ({ s with state := st }, e)

/-- The `for replica in 0..replicas` loop of `deploy_single_service`: the
first argument counts the remaining replicas, the second is the current
replica index, the third accumulates the created container ids (the local
`container_ids` vector, discarded when an error propagates). -/
def deployReplicas (o : DockerOracle) (image stackName svcName : String) (replicas : Nat) :
    Nat → Nat → List String → Except PyError (List String)
  | 0, _, acc => .ok acc
  | Nat.succ k, i, acc =>
    let containerName :=
      if replicas = 1 then stackName ++ "_" ++ svcName
      else stackName ++ "_" ++ svcName ++ "_" ++ toString (i + 1)
    match o.createContainer image containerName with
    | .error e => .error (.docker e)
    | .ok cid =>
      match o.startContainer cid with
      | .error e => .error (.docker e)
      | .ok _ => deployReplicas o image stackName svcName replicas k (i + 1) (acc ++ [cid])

/-- `Pyo3Stack::deploy_single_service`. -/
def Pyo3Stack.deploy_single_service (o : DockerOracle) (s : Pyo3Stack) (svcName : String) :
    Pyo3Stack × Option PyError :=
  match s.definition.get_service svcName with
  | none => (s, some (.configuration (.serviceNotFound svcName)))
  | some svc =>
    match svc.image with
    | none => (s, some (.configuration (.noImage svcName)))
    | some image =>
      let replicas := (alookup svcName s.definition.runtime_config.scale_policies).getD 1
      match deployReplicas o image s.definition.name svcName replicas replicas 0 [] with
      | .error e => (s, some e)
      | .ok ids =>
          ({ s with state :=
              { s.state with containers := indexMapInsert s.state.containers svcName ids } },
           none)

/-- The `for service_name in deployment_order` loop of `deploy_services`. -/
def deployServicesGo (o : DockerOracle) : List String → Pyo3Stack → Pyo3Stack × Option PyError
  | [], s => (s, none)
  | n :: rest, s =>
    let r := s.deploy_single_service o n
    match r.2 with
    | some e => (r.1, some e)
    | none => deployServicesGo o rest r.1

/-- `Pyo3Stack::deploy_services`: deploy in dependency order. -/
def Pyo3Stack.deploy_services (o : DockerOracle) (s : Pyo3Stack) :
    Pyo3Stack × Option PyError :=
  deployServicesGo o s.definition.runtime_config.deployment_order s

/-- `Pyo3Stack::up` (stack.rs): set `status = Deploying`, create networks,
create volumes, deploy services in order, and on full success set
`status = Running`.  Any error propagates immediately, leaving the state as
accumulated so far (status still `Deploying`). -/
def Pyo3Stack.up (o : DockerOracle) (s : Pyo3Stack) : Pyo3Stack × Option PyError :=
  let s1 : Pyo3Stack := { s with state := { s.state with status := .Deploying } }
  let r1 := s1.create_networks o
  match r1.2 with
  | some e => (r1.1, some e)
  | none =>
    let r2 := r1.1.create_volumes o
    match r2.2 with
    | some e => (r2.1, some e)
    | none =>
      let r3 := r2.1.deploy_services o
      match r3.2 with
      | some e => (r3.1, some e)
      | none => ({ r3.1 with state := { r3.1.state with status := .Running } }, none)

/-- Trace of the docker calls and loop iterations performed by `down`
(results of the underlying client calls are ignored by the source, so only
the attempted actions are observable). -/
inductive DockerAction where
  /-- one iteration of the `for service_name in service_order.iter().rev()` loop -/
  | teardownService (name : String)
  | stopContainer (id : String)
  | removeContainer (id : String)
  | deleteNetwork (id : String)
  | deleteVolume (id : String)
  deriving DecidableEq

/-- `HashMap::remove` on the association-list model. -/
def removeKey {α : Type} (m : List (String × α)) (k : String) : List (String × α) :=
  m.filter (fun p => !(p.1 == k))

/-- `Pyo3Stack::remove_service_containers`: drop the tracked entry and
best-effort stop/remove each container (errors ignored; a failed
`containers().get` skips that container). -/
def Pyo3Stack.remove_service_containers (o : DockerOracle) (s : Pyo3Stack)
    (svcName : String) : Pyo3Stack × List DockerAction :=
  match alookup svcName s.state.containers with
  | none => (s, [DockerAction.teardownService svcName])
  | some ids =>
      ({ s with state := { s.state with containers := removeKey s.state.containers svcName } },
       DockerAction.teardownService svcName ::
         ids.flatMap (fun cid =>
           match o.getContainer cid with
           | .error _ => []
           | .ok _ => [DockerAction.stopContainer cid, DockerAction.removeContainer cid]))

/-- `Pyo3Stack::remove_networks`: drain the tracked networks, best-effort
deleting each. -/
def Pyo3Stack.remove_networks (o : DockerOracle) (s : Pyo3Stack) :
    Pyo3Stack × List DockerAction :=
  ({ s with state := { s.state with networks := [] } },
   s.state.networks.flatMap (fun p =>
     match o.getNetwork p.2 with
     | .error _ => []
     | .ok _ => [DockerAction.deleteNetwork p.2]))

/-- `Pyo3Stack::remove_volumes`, analogous. -/
def Pyo3Stack.remove_volumes (o : DockerOracle) (s : Pyo3Stack) :
    Pyo3Stack × List DockerAction :=
  ({ s with state := { s.state with volumes := [] } },
   s.state.volumes.flatMap (fun p =>
     match o.getVolume p.2 with
     | .error _ => []
     | .ok _ => [DockerAction.deleteVolume p.2]))

/-- The teardown loop of `down` over the reversed deployment order. -/
def downGo (o : DockerOracle) : List String → Pyo3Stack → Pyo3Stack × List DockerAction
  | [], s => (s, [])
  | n :: rest, s =>
    let r1 := s.remove_service_containers o n
    let r2 := downGo o rest r1.1
    (r2.1, r1.2 ++ r2.2)

/-- `Pyo3Stack::down` (stack.rs): tear services down in reverse deployment
order, then networks, then volumes — every individual failure ignored — and
finally reset the runtime state to its default.  The helpers always return
`Ok`, so `down` always succeeds. -/
def Pyo3Stack.down (o : DockerOracle) (s : Pyo3Stack) :
    Pyo3Stack × Option PyError × List DockerAction :=
  let r1 := downGo o s.definition.runtime_config.deployment_order.reverse s
  let r2 := r1.1.remove_networks o
  let r3 := r2.1.remove_volumes o
  ({ r3.1 with state := {} }, none, r1.2 ++ r2.2 ++ r3.2)

/-- The sequence of services a teardown trace visits, in order. -/
def teardownServices : List DockerAction → List String
  | [] => []
  | DockerAction.teardownService n :: rest => n :: teardownServices rest
  | DockerAction.stopContainer _ :: rest => teardownServices rest
  | DockerAction.removeContainer _ :: rest => teardownServices rest
  | DockerAction.deleteNetwork _ :: rest => teardownServices rest
  | DockerAction.deleteVolume _ :: rest => teardownServices rest

/-! ### service_simple.rs: the independent `Service` builder -/

namespace SvcSimple

/-- `BuildConfig` from service_simple.rs (`args` is a `HashMap`, modelled as
an association list). -/
structure BuildConfig where
  context : String
  dockerfile : Option String := none
  args : List (String × String) := []
  target : Option String := none
  cache_from : List String := []
  network : Option String := none
  ssh : Option String := none
  deriving DecidableEq

/-- `BuildConfig::new(context)`. -/
def BuildConfig.new (context : String) : BuildConfig := { context := context }

/-- `ResourceLimits` from service_simple.rs. -/
structure ResourceLimits where
  memory : Option String := none
  memory_reservation : Option String := none
  cpus : Option String := none
  cpu_shares : Option Nat := none
  cpu_quota : Option Nat := none
  cpu_period : Option Nat := none
  deriving DecidableEq

/-- `PortConfig` from service_simple.rs. -/
structure PortConfig where
  target : Nat
  published : Option Nat := none
  protocol : String := "tcp"
  mode : Option String := none
  deriving DecidableEq

/-- `VolumeConfig` from service_simple.rs (`bind_options` is always `None`
on every builder path and is omitted). -/
structure VolumeConfig where
  source : String
  target : String
  volume_type : String
  read_only : Bool
  deriving DecidableEq

/-- The independent `Service` of service_simple.rs.  `HashMap` fields are
association lists; the healthcheck map is the list of its key/value pairs. -/
structure Service where
  name : String
  image : Option String := none
  build : Option BuildConfig := none
  ports : List String := []
  advanced_ports : List PortConfig := []
  environment : List (String × String) := []
  env_files : List String := []
  volumes : List String := []
  advanced_volumes : List VolumeConfig := []
  command : Option (List String) := none
  working_dir : Option String := none
  networks : List String := []
  depends_on : List String := []
  restart_policy : Option String := none
  hostname : Option String := none
  labels : List (String × String) := []
  replicas : Nat := 1
  resources : ResourceLimits := {}
  secrets : List String := []
  healthcheck : Option (List (String × String)) := none
  deriving DecidableEq

/-- `Service::new(name)`. -/
def Service.new (name : String) : Service := { name := name }

/-- `Service::image`: sets the image and clears `build` (the source comments
`// Image and build are mutually exclusive`). -/
def Service.image_ (s : Service) (image : String) : Service :=
  { s with image := some image, build := none }

/-- `Service::build_context`: sets a fresh build config and clears `image`. -/
def Service.build_context (s : Service) (context : String) : Service :=
  { s with build := some (BuildConfig.new context), image := none }

/-- `Service::build_with_dockerfile`: build config with dockerfile, clears
`image`. -/
def Service.build_with_dockerfile (s : Service) (context dockerfile : String) : Service :=
  let bc : BuildConfig := { BuildConfig.new context with dockerfile := some dockerfile }
  { s with build := some bc, image := none }

/-- `Service::build_arg`: insert into the existing build config's args, or
create a default config with context `"."` — without touching `image`. -/
def Service.build_arg (s : Service) (k v : String) : Service :=
  match s.build with
  | some b => { s with build := some { b with args := indexMapInsert b.args k v } }
  | none => { s with build := some { BuildConfig.new "." with args := [(k, v)] } }

/-- `Service::build_target`: set the target on the existing build config, or
create a default config with context `"."` — without touching `image`. -/
def Service.build_target (s : Service) (target : String) : Service :=
  match s.build with
  | some b => { s with build := some { b with target := some target } }
  | none => { s with build := some { BuildConfig.new "." with target := some target } }

/-- `Service::build_cache_from`: push a cache source onto the existing build
config, or create a default config with context `"."` — without touching
`image`. -/
def Service.build_cache_from (s : Service) (image : String) : Service :=
  match s.build with
  | some b => { s with build := some { b with cache_from := b.cache_from ++ [image] } }
  | none => { s with build := some { BuildConfig.new "." with cache_from := [image] } }

/-- `Service::ports` (replaces the list). -/
def Service.ports_ (s : Service) (ports : List String) : Service :=
  { s with ports := ports }

/-- `Service::env` (`HashMap::insert`). -/
def Service.env (s : Service) (k v : String) : Service :=
  { s with environment := indexMapInsert s.environment k v }

/-- `Service::volume` (push). -/
def Service.volume (s : Service) (v : String) : Service :=
  { s with volumes := s.volumes ++ [v] }

/-- `Service::command`. -/
def Service.command_ (s : Service) (cmd : List String) : Service :=
  { s with command := some cmd }

/-- `Service::working_dir`. -/
def Service.working_dir_ (s : Service) (dir : String) : Service :=
  { s with working_dir := some dir }

/-- `Service::network` (push). -/
def Service.network (s : Service) (n : String) : Service :=
  { s with networks := s.networks ++ [n] }

/-- `Service::depends_on_service` (push). -/
def Service.depends_on_service (s : Service) (dep : String) : Service :=
  { s with depends_on := s.depends_on ++ [dep] }

/-- `Service::restart_policy`. -/
def Service.restart_policy_ (s : Service) (p : String) : Service :=
  { s with restart_policy := some p }

/-- `Service::hostname`. -/
def Service.hostname_ (s : Service) (h : String) : Service :=
  { s with hostname := some h }

/-- `Service::label` (`HashMap::insert`). -/
def Service.label (s : Service) (k v : String) : Service :=
  { s with labels := indexMapInsert s.labels k v }

/-- `Service::replicas`. -/
def Service.replicas_ (s : Service) (c : Nat) : Service :=
  { s with replicas := c }

/-- `Service::memory`. -/
def Service.memory (s : Service) (limit : String) : Service :=
  { s with resources := { s.resources with memory := some limit } }

/-- `Service::clone_with_name`. -/
def Service.clone_with_name (s : Service) (n : String) : Service :=
  { s with name := n }

end SvcSimple

/-! ### mod.rs: the Phase 2.0 `Pyo3Stack` over registered services -/

/-- `StackState` from mod.rs (no `volumes` map). -/
structure StackStateM where
  containers : List (String × List String) := []
  networks : List (String × String) := []
  status : StackStatus := .NotDeployed
  deriving DecidableEq

/-- `Pyo3Stack` from mod.rs: a name, the registered services
(`HashMap<String, Service>` as an association list), and runtime state. -/
structure Pyo3StackM where
  name : String
  registered_services : List (String × SvcSimple.Service) := []
  state : StackStateM := {}
  deriving DecidableEq

/-- `Pyo3Stack::register_service` (mod.rs): reject duplicates by name, else
insert the service under its own name. -/
def Pyo3StackM.register_service (stk : Pyo3StackM) (svc : SvcSimple.Service) :
    Pyo3StackM × Option PyError :=
  let serviceName := svc.name
  if stk.registered_services.any (fun p => p.1 == serviceName) then
    (stk, some (.valueError (.alreadyRegistered serviceName stk.name)))
  else
    ({ stk with registered_services := stk.registered_services ++ [(serviceName, svc)] }, none)

/-- `e.to_string().contains(pat)` on the modelled error message. -/
def containsSubstr (s pat : String) : Bool :=
  decide (List.IsInfix pat.data s.data)

/-- `entry(name).or_insert_with(Vec::new).push(id)`. -/
def pushContainer (m : List (String × List String)) (k cid : String) :
    List (String × List String) :=
  indexMapInsert m k ((alookup k m).getD [] ++ [cid])

/-- The `for (service_name, service) in &self.registered_services` loop of
mod.rs `up`: `σ` is the `HashMap` iteration order.  A service without an
image is skipped (`build` is not implemented); container create/start
errors are fatal. -/
def upDeployGo (o : DockerOracle) (stackName : String)
    (services : List (String × SvcSimple.Service)) :
    List String → StackStateM → StackStateM × Option PyError
  | [], st => (st, none)
  | n :: rest, st =>
    match alookup n services with
    | none => upDeployGo o stackName services rest st
    | some svc =>
      match svc.image with
      | none => upDeployGo o stackName services rest st
      | some image =>
        match o.createContainer image (stackName ++ "_" ++ n ++ "_1") with
        | .error e => (st, some (.docker e))
        | .ok cid =>
          match o.startContainer cid with
          | .error e => (st, some (.docker e))
          | .ok _ =>
              upDeployGo o stackName services rest
                { st with containers := pushContainer st.containers n cid }

/-- The continuation of mod.rs `up` after the default network's id has been
determined: record it, deploy every registered service, set
`status = Running` on success. -/
def Pyo3StackM.upAfterNetwork (o : DockerOracle) (σ : List String) (stk : Pyo3StackM)
    (networkId : String) : Pyo3StackM × Option PyError :=
  let st1 : StackStateM :=
    { stk.state with networks := indexMapInsert stk.state.networks "default" networkId }
  let r := upDeployGo o stk.name stk.registered_services σ st1
  match r.2 with
  | some e => ({ stk with state := r.1 }, some e)
  | none => ({ stk with state := { r.1 with status := .Running } }, none)

/-- `Pyo3Stack::up` (mod.rs, Phase 2.0): create the `{stack}_default`
network; if creation fails with an error whose message contains
`already exists`, treat it as success and use the network name as its id;
any other creation error is returned as-is.  Then deploy the registered
services (`σ` is the services `HashMap` iteration order). -/
def Pyo3StackM.up (o : DockerOracle) (σ : List String) (stk : Pyo3StackM) :
    Pyo3StackM × Option PyError :=
  let networkName := stk.name ++ "_default"
  match o.createNetwork networkName with
  | .ok nid => stk.upAfterNetwork o σ nid
  | .error e =>
    if containsSubstr e "already exists" then stk.upAfterNetwork o σ networkName
    else (stk, some (.docker e))

/-- The stop/force-remove actions of a scale-down (results of the client
calls are ignored by the source). -/
inductive ScaleAction where
  | stop (id : String)
  | removeForce (id : String)
  deriving DecidableEq

/-- The scale-down loop: pop `k` containers from the end of the tracked
list, stopping then force-removing each. -/
def popStopRemove : Nat → List String → List String × List ScaleAction
  | 0, ids => (ids, [])
  | Nat.succ k, ids =>
    match ids.getLast? with
    | none => (ids, [])
    | some cid =>
      let r := popStopRemove k ids.dropLast
      (r.1, ScaleAction.stop cid :: ScaleAction.removeForce cid :: r.2)

/-- `Pyo3Stack::create_service_container` (mod.rs). -/
def Pyo3StackM.create_service_container (o : DockerOracle) (stk : Pyo3StackM)
    (serviceName : String) (replicaNum : Nat) : Pyo3StackM × Option PyError :=
  match alookup serviceName stk.registered_services with
  | none => (stk, some (.valueError (.serviceNotFound serviceName)))
  | some svc =>
    match svc.image with
    | none => (stk, some (.valueError (.serviceHasNoImage serviceName)))
    | some image =>
      match o.createContainer image
          (stk.name ++ "_" ++ serviceName ++ "_" ++ toString replicaNum) with
      | .error e => (stk, some (.docker e))
      | .ok cid =>
        match o.startContainer cid with
        | .error e => (stk, some (.docker e))
        | .ok _ =>
            ({ stk with state :=
                { stk.state with containers := pushContainer stk.state.containers serviceName cid } },
             none)

/-- The scale-up loop of mod.rs `scale`: add the missing replicas with
indices continuing from `current + 1`; the first failure propagates. -/
def scaleUpGo (o : DockerOracle) (serviceName : String) (current : Nat) :
    Nat → Nat → Pyo3StackM → Pyo3StackM × Option PyError
  | 0, _, stk => (stk, none)
  | Nat.succ k, i, stk =>
    let r := stk.create_service_container o serviceName (current + i + 1)
    match r.2 with
    | some e => (r.1, some e)
    | none => scaleUpGo o serviceName current k (i + 1) r.1

/-- `Pyo3Stack::scale` (mod.rs, Phase 2.0): validate the service, no-op at
the target count, create missing replicas, or pop excess containers from the
end of the tracked list (stop, then force-remove each).  The third component
records the stop/remove actions of a scale-down. -/
def Pyo3StackM.scale (o : DockerOracle) (stk : Pyo3StackM) (serviceName : String)
    (replicas : Nat) : Pyo3StackM × Option PyError × List ScaleAction :=
  if !(stk.registered_services.any (fun p => p.1 == serviceName)) then
    (stk, some (.valueError (.serviceNotFoundInStack serviceName)), [])
  else
    let current := ((alookup serviceName stk.state.containers).getD []).length
    if replicas = current then (stk, none, [])
    else if current < replicas then
      let r := scaleUpGo o serviceName current (replicas - current) 0 stk
      (r.1, r.2, [])
    else
      match alookup serviceName stk.state.containers with
      | none => (stk, none, [])
      | some ids =>
        let r := popStopRemove (current - replicas) ids
        ({ stk with state :=
            { stk.state with
              containers := indexMapInsert stk.state.containers serviceName r.1 } },
         none, r.2)

/-! ### Concrete instances used to exercise the model -/

/-- An oracle whose every call succeeds (ids echo the requested names). -/
def okOracle : DockerOracle where
  createNetwork := fun n => .ok n
  createVolume := fun n => .ok n
  createContainer := fun _ n => .ok n
  startContainer := fun _ => .ok ()
  getContainer := fun _ => .ok ()
  stopContainer := fun _ => .ok ()
  removeContainer := fun _ => .ok ()
  getNetwork := fun _ => .ok ()
  deleteNetwork := fun _ => .ok ()
  getVolume := fun _ => .ok ()
  deleteVolume := fun _ => .ok ()

/-- Two services where `web` depends on `db` (the repository test
`test_deployment_order_simple`). -/
def dW : StackDefinition :=
  { name := "w"
    compose := { services :=
      [("db", some { image := some "postgres" }),
       ("web", some { image := some "nginx", depends_on := ["db"] })] } }

/-- Rank function certifying that `dW` is acyclic. -/
def rankW : String → Nat := fun n => if n = "web" then 1 else 0

/-- The mutual two-service cycle from the repository test
`test_circular_dependency_detection`. -/
def dCycW : StackDefinition :=
  { name := "t"
    compose := { services :=
      [("service1", some { image := some "nginx", depends_on := ["service2"] }),
       ("service2", some { image := some "postgres", depends_on := ["service1"] })] } }

/-- A self-cycle on `a` together with an undefined dependency `x`. -/
def dSelfMissing : StackDefinition :=
  { name := "t"
    compose := { services := [("a", some { depends_on := ["a", "x"] })] } }

/-- Two independent services, both of in-degree zero. -/
def dTie : StackDefinition :=
  { name := "t"
    compose := { services :=
      [("a", some { image := some "i" }), ("b", some { image := some "i" })] } }

/-- A valid one-service definition whose order has been computed. -/
def dOne : StackDefinition :=
  { name := "t"
    compose := { services := [("a", some { image := some "i" })] }
    runtime_config := { deployment_order := ["a"] } }

/-- A two-service stack ready for deployment (order already computed). -/
def sUp : Pyo3Stack :=
  { definition :=
    { name := "t"
      compose := { services :=
        [("a", some { image := some "ia" }),
         ("b", some { image := some "ib", depends_on := ["a"] })] }
      runtime_config := { deployment_order := ["a", "b"] } } }

/-- Oracle that fails to create the container of service `b`. -/
def failBOracle : DockerOracle :=
  { okOracle with createContainer := fun _ n => if n = "t_b" then .error "boom" else .ok n }

/-- A Phase 2.0 stack with one registered `web` service, marked Running. -/
def stkWeb : Pyo3StackM :=
  { name := "t"
    registered_services := [("web", { SvcSimple.Service.new "web" with image := some "nginx" })]
    state := { status := .Running } }

/-- Oracle whose network creation reports the network as already existing. -/
def netExistsOracle : DockerOracle :=
  { okOracle with createNetwork := fun _ => .error "network t_default already exists. reuse it" }

/-- Oracle whose network creation fails for an unrelated reason. -/
def netFailOracle : DockerOracle :=
  { okOracle with createNetwork := fun _ => .error "permission denied" }

/-! ### Association-list and dependency-graph helper lemmas -/

theorem alookup_eq_none {α : Type} {k : String} {l : List (String × α)} :
    alookup k l = none ↔ k ∉ l.map Prod.fst := by
  induction l with
  | nil => simp [alookup]
  | cons p t ih => by_cases h : k = p.1 <;> simp [alookup, h, ih]

theorem alookup_mem {α : Type} {k : String} {l : List (String × α)} {v : α}
    (h : alookup k l = some v) : (k, v) ∈ l := by
  induction l with
  | nil => simp [alookup] at h
  | cons p t ih =>
    by_cases hk : k = p.1
    · rw [alookup, if_pos hk] at h
      have hv : p.2 = v := Option.some_inj.1 h
      subst hk
      subst hv
      exact List.mem_cons.2 (Or.inl rfl)
    · rw [alookup, if_neg hk] at h
      exact List.mem_cons_of_mem _ (ih h)

theorem depsOf_eq_nil_of_not_mem {d : StackDefinition} {n : String}
    (h : n ∉ d.get_service_names) : d.depsOf n = [] := by
  have hl : alookup n d.compose.services = none := alookup_eq_none.2 h
  simp [StackDefinition.depsOf, StackDefinition.get_service, hl]

theorem mem_of_depsOf_ne_nil {d : StackDefinition} {n : String}
    (h : d.depsOf n ≠ []) : n ∈ d.get_service_names := by
  by_contra hn
  exact h (depsOf_eq_nil_of_not_mem hn)

theorem mem_names_of_dependsOn {d : StackDefinition} {a b : String}
    (h : d.DependsOn a b) : a ∈ d.get_service_names := by
  refine mem_of_depsOf_ne_nil (fun he => ?_)
  rw [StackDefinition.DependsOn, he] at h
  exact (List.not_mem_nil b) h

theorem dependsOn_mem_services {d : StackDefinition} {a b : String}
    (h : d.DependsOn a b) : ∃ s, (a, some s) ∈ d.compose.services ∧ b ∈ s.depends_on := by
  rw [StackDefinition.DependsOn, StackDefinition.depsOf] at h
  rcases hg : d.get_service a with _ | s
  · rw [hg] at h; exact absurd h (List.not_mem_nil b)
  · rw [hg] at h
    rw [StackDefinition.get_service] at hg
    rcases hl : alookup a d.compose.services with _ | v
    · rw [hl] at hg; exact absurd hg (by simp)
    · rw [hl] at hg
      rcases v with _ | s'
      · exact absurd hg (by simp)
      · refine ⟨s, ?_, h⟩
        have : s' = s := by simpa using hg
        exact this ▸ alookup_mem hl

/-- Acyclicity follows from any rank function that strictly decreases along
`depends_on` edges, phrased over the concrete service entries so that it is
decidable for a concrete definition. -/
theorem acyclic_of_rank (d : StackDefinition) (rank : String → Nat)
    (h : ∀ p ∈ d.compose.services,
      ∀ b ∈ (p.2.map ComposeService.depends_on).getD [], rank b < rank p.1) :
    d.Acyclic := by
  have hedge : ∀ a b, d.DependsOn a b → rank b < rank a := by
    intro a b hab
    obtain ⟨s, hmem, hb⟩ := dependsOn_mem_services hab
    exact h (a, some s) hmem b (by simpa using hb)
  rintro ⟨v, hv⟩
  have : ∀ x y, Relation.TransGen d.DependsOn x y → rank y < rank x := by
    intro x y hxy
    induction hxy with
    | single h1 => exact hedge _ _ h1
    | tail _ h1 ih => exact lt_trans (hedge _ _ h1) ih
  exact absurd (this v v hv) (lt_irrefl _)

theorem count_dependentsOf (d : StackDefinition) (hnd : d.get_service_names.Nodup)
    (s v : String) :
    (d.dependentsOf s).count v =
      if v ∈ d.get_service_names then (d.depsOf v).count s else 0 := by
  suffices h : ∀ l : List String, l.Nodup →
      (l.flatMap fun n => List.replicate ((d.depsOf n).count s) n).count v =
        if v ∈ l then (d.depsOf v).count s else 0 by
    rw [StackDefinition.dependentsOf]
    exact h _ hnd
  intro l hl
  induction l with
  | nil => simp
  | cons a t ih =>
    rw [List.nodup_cons] at hl
    rw [List.flatMap_cons, List.count_append, ih hl.2]
    by_cases hv : v = a
    · subst hv
      simp [List.count_replicate_self, hl.1]
    · have h0 : (List.replicate ((d.depsOf a).count s) a).count v = 0 := by
        rw [List.count_replicate]
        simp [Ne.symm hv]
      rw [h0]
      by_cases hvt : v ∈ t <;> simp [hvt, hv]

theorem mem_names_of_mem_dependentsOf {d : StackDefinition} {s v : String}
    (h : v ∈ d.dependentsOf s) : v ∈ d.get_service_names := by
  rw [StackDefinition.dependentsOf, List.mem_flatMap] at h
  obtain ⟨n, hn, hv⟩ := h
  rw [List.eq_of_mem_replicate hv]
  exact hn

/-- Filtering out the members of `r ++ [s]` removes, beyond the members of
`r`, exactly the occurrences of `s`. -/
theorem filter_not_contains_append_singleton (l r : List String) (s : String) :
    l.filter (fun b => !((r ++ [s]).contains b)) =
      (l.filter (fun b => !(r.contains b))).filter (fun b => !(b == s)) := by
  rw [List.filter_filter]
  apply List.filter_congr
  intro b _
  by_cases hbs : b = s <;> by_cases hbr : b ∈ r <;>
    simp [List.contains, List.elem_eq_mem, hbs, hbr]

theorem length_filter_ne (m : List String) (s : String) :
    (m.filter (fun b => !(b == s))).length = m.length - m.count s := by
  induction m with
  | nil => simp
  | cons a t ih =>
    by_cases ha : a = s
    · subst ha
      simp only [List.filter_cons, beq_self_eq_true, Bool.not_true, List.count_cons_self]
      rw [if_neg (by simp), ih, List.length_cons]
      have := List.count_le_length a t
      omega
    · have hne : (a == s) = false := by simp [ha]
      simp only [List.filter_cons, hne, Bool.not_false, if_true, List.length_cons,
        List.count_cons_of_ne (Ne.symm ha)]
      rw [ih]
      have := List.count_le_length s t
      omega

/-! ### The inner decrement loop of Kahn's algorithm

Processing the dependents list of a dequeued service decrements each listed
in-degree once and enqueues exactly the services whose in-degree reaches
zero; no in-degree ever underflows because each count is bounded by the
current in-degree. -/

theorem foldl_processDependent_spec (l : List String) (st : KahnState)
    (h : ∀ v, l.count v ≤ st.inDeg v) :
    (l.foldl processDependent st).result = st.result ∧
    (∀ v, (l.foldl processDependent st).inDeg v = st.inDeg v - l.count v) ∧
    ∃ pushed : List String,
      (l.foldl processDependent st).queue = st.queue ++ pushed ∧
      pushed.Nodup ∧
      ∀ v, v ∈ pushed ↔ (0 < l.count v ∧ st.inDeg v = l.count v) := by
  induction l generalizing st with
  | nil =>
    refine ⟨rfl, fun v => by simp, [], by simp, List.nodup_nil, fun v => by simp⟩
  | cons a t ih =>
    have h1 : ∀ v, t.count v ≤ (processDependent st a).inDeg v := by
      intro v
      show t.count v ≤ (if v = a then st.inDeg a - 1 else st.inDeg v)
      by_cases hv : v = a
      · subst hv
        have hc := h v
        rw [List.count_cons_self] at hc
        rw [if_pos rfl]
        omega
      · have hc := h v
        rw [List.count_cons_of_ne hv] at hc
        rw [if_neg hv]
        exact hc
    obtain ⟨hR, hD, pushed, hQ, hND, hCH⟩ := ih (processDependent st a) h1
    rw [List.foldl_cons]
    refine ⟨by rw [hR]; rfl, ?_, ?_⟩
    · intro v
      rw [hD v]
      show (if v = a then st.inDeg a - 1 else st.inDeg v) - t.count v
        = st.inDeg v - (a :: t).count v
      by_cases hv : v = a
      · subst hv
        rw [if_pos rfl, List.count_cons_self]
        omega
      · rw [if_neg hv, List.count_cons_of_ne hv]
    · have hq1 : (processDependent st a).queue
          = st.queue ++ (if st.inDeg a - 1 = 0 then [a] else []) := by
        show (if st.inDeg a - 1 = 0 then st.queue ++ [a] else st.queue) = _
        by_cases h0 : st.inDeg a - 1 = 0 <;> simp [h0]
      refine ⟨(if st.inDeg a - 1 = 0 then [a] else []) ++ pushed, ?_, ?_, ?_⟩
      · rw [hQ, hq1, List.append_assoc]
      · by_cases h0 : st.inDeg a - 1 = 0
        · rw [if_pos h0]
          have hca : 1 ≤ st.inDeg a := by
            have hc := h a
            rw [List.count_cons_self] at hc
            omega
          have hnotin : a ∉ pushed := by
            intro hmem
            obtain ⟨hpos, heq⟩ := (hCH a).1 hmem
            have hd : (processDependent st a).inDeg a = st.inDeg a - 1 := by
              show (if a = a then st.inDeg a - 1 else st.inDeg a) = _
              rw [if_pos rfl]
            rw [hd] at heq
            omega
          refine List.Nodup.append (by simp) hND ?_
          rw [List.disjoint_left]
          intro x hx
          rw [List.mem_singleton] at hx
          subst hx
          exact hnotin
        · rw [if_neg h0]
          simpa using hND
      · intro v
        rw [List.mem_append]
        by_cases hv : v = a
        · subst hv
          have hc := h v
          rw [List.count_cons_self] at hc
          have hseg : v ∈ (if st.inDeg v - 1 = 0 then [v] else ([] : List String))
              ↔ st.inDeg v - 1 = 0 := by
            by_cases h0 : st.inDeg v - 1 = 0 <;> simp [h0]
          have hdeg : (processDependent st v).inDeg v = st.inDeg v - 1 := by
            show (if v = v then st.inDeg v - 1 else st.inDeg v) = _
            rw [if_pos rfl]
          have hp : v ∈ pushed ↔ 0 < t.count v ∧ st.inDeg v - 1 = t.count v := by
            rw [hCH v, hdeg]
          rw [hseg, hp, List.count_cons_self]
          omega
        · have hseg : v ∈ (if st.inDeg a - 1 = 0 then [a] else ([] : List String)) ↔ False := by
            by_cases h0 : st.inDeg a - 1 = 0 <;> simp [h0, hv]
          have hdeg : (processDependent st a).inDeg v = st.inDeg v := by
            show (if v = a then st.inDeg a - 1 else st.inDeg v) = _
            rw [if_neg hv]
          rw [hseg, List.count_cons_of_ne hv, hCH v, hdeg]
          simp

/-! ### The Kahn loop invariant -/

/-- Invariant of the `while let Some(service) = queue.pop_front()` loop of
`build_deployment_order`, tying the mutable state to the dependency graph:
the in-degree of every service counts its dependencies not yet in `result`,
`result` lists every service after all its dependencies, queued services
have all dependencies in `result`, and every service still missing from
both has a dependency outside `result`. -/
structure KahnInv (d : StackDefinition) (st : KahnState) : Prop where
  result_nodup : st.result.Nodup
  queue_nodup : st.queue.Nodup
  disj : ∀ v ∈ st.queue, v ∉ st.result
  result_sub : ∀ v ∈ st.result, v ∈ d.get_service_names
  queue_sub : ∀ v ∈ st.queue, v ∈ d.get_service_names
  deg : ∀ v, st.inDeg v = ((d.depsOf v).filter (fun b => !(st.result.contains b))).length
  sorted : ∀ r₁ a r₂, st.result = r₁ ++ a :: r₂ → ∀ b ∈ d.depsOf a, b ∈ r₁
  queue_ready : ∀ v ∈ st.queue, ∀ b ∈ d.depsOf v, b ∈ st.result
  pending_pos : ∀ v ∈ d.get_service_names, v ∉ st.result → v ∉ st.queue → st.inDeg v ≠ 0

theorem KahnInv.result_deps {d : StackDefinition} {st : KahnState} (inv : KahnInv d st) :
    ∀ v ∈ st.result, ∀ b ∈ d.depsOf v, b ∈ st.result := by
  intro v hv b hb
  obtain ⟨r₁, r₂, hsplit⟩ := List.append_of_mem hv
  have hmem := inv.sorted r₁ v r₂ hsplit b hb
  rw [hsplit]
  exact List.mem_append.2 (Or.inl hmem)

theorem deg_zero_of_deps_in_result {d : StackDefinition} {st : KahnState}
    (inv : KahnInv d st) {v : String} (h : ∀ b ∈ d.depsOf v, b ∈ st.result) :
    st.inDeg v = 0 := by
  rw [inv.deg v]
  have hfil : (d.depsOf v).filter (fun b => !(st.result.contains b)) = [] := by
    rw [List.filter_eq_nil_iff]
    intro b hb
    simp [List.contains, List.elem_eq_mem, h b hb]
  rw [hfil]
  rfl

theorem KahnInv.queue_deg_zero {d : StackDefinition} {st : KahnState} (inv : KahnInv d st) :
    ∀ v ∈ st.queue, st.inDeg v = 0 :=
  fun v hv => deg_zero_of_deps_in_result inv (inv.queue_ready v hv)

theorem count_filter_eq (p : String → Bool) (s : String) (l : List String)
    (hp : p s = true) : (l.filter p).count s = l.count s :=
  List.count_filter hp

theorem kahnStep_inv (d : StackDefinition) (hnd : d.get_service_names.Nodup)
    {st : KahnState} (inv : KahnInv d st) {s : String} {rest : List String}
    (hq : st.queue = s :: rest) :
    KahnInv d (kahnStep d { st with queue := rest, result := st.result ++ [s] } s) := by
  have hs_queue : s ∈ st.queue := by rw [hq]; exact List.mem_cons_self _ _
  have hs_names : s ∈ d.get_service_names := inv.queue_sub s hs_queue
  have hs_not_result : s ∉ st.result := inv.disj s hs_queue
  have hq_nodup := inv.queue_nodup
  rw [hq, List.nodup_cons] at hq_nodup
  have hs_not_rest : s ∉ rest := hq_nodup.1
  have hrest_nodup : rest.Nodup := hq_nodup.2
  have hs_contains : (!(st.result.contains s)) = true := by
    simp [List.contains, List.elem_eq_mem, hs_not_result]
  set st' : KahnState := { st with queue := rest, result := st.result ++ [s] } with hst'
  have hin : st'.inDeg = st.inDeg := rfl
  have hcount : ∀ v, (d.dependentsOf s).count v ≤ st'.inDeg v := by
    intro v
    rw [hin, count_dependentsOf d hnd s v]
    by_cases hv : v ∈ d.get_service_names
    · rw [if_pos hv, inv.deg v]
      calc (d.depsOf v).count s
          = ((d.depsOf v).filter (fun b => !(st.result.contains b))).count s :=
            (count_filter_eq (fun b => !(st.result.contains b)) s (d.depsOf v) hs_contains).symm
        _ ≤ _ := List.count_le_length _ _
    · rw [if_neg hv]
      exact Nat.zero_le _
  obtain ⟨hR, hD, pushed, hQ, hND, hCH⟩ :=
    foldl_processDependent_spec (d.dependentsOf s) st' hcount
  have hres : (kahnStep d st' s).result = st.result ++ [s] := hR
  have hqueue : (kahnStep d st' s).queue = rest ++ pushed := hQ
  have hdegv : ∀ v, (kahnStep d st' s).inDeg v = st.inDeg v - (d.dependentsOf s).count v := hD
  -- the in-degree invariant for the extended result
  have hdeg_new : ∀ v, st.inDeg v - (d.dependentsOf s).count v
      = ((d.depsOf v).filter (fun b => !((st.result ++ [s]).contains b))).length := by
    intro v
    rw [filter_not_contains_append_singleton, length_filter_ne, inv.deg v,
      count_dependentsOf d hnd s v]
    by_cases hv : v ∈ d.get_service_names
    · rw [if_pos hv, count_filter_eq (fun b => !(st.result.contains b)) s (d.depsOf v) hs_contains]
    · rw [if_neg hv, depsOf_eq_nil_of_not_mem hv]
      simp
  -- pushed services are exactly those whose last missing dependencies were `s`
  have hpushed_names : ∀ v ∈ pushed, v ∈ d.get_service_names := by
    intro v hv
    have hpos := ((hCH v).1 hv).1
    exact mem_names_of_mem_dependentsOf (List.count_pos_iff.1 hpos)
  have hpushed_deg : ∀ v ∈ pushed, (kahnStep d st' s).inDeg v = 0 := by
    intro v hv
    obtain ⟨hpos, heq⟩ := (hCH v).1 hv
    rw [hdegv v, hin] at *
    omega
  have hpushed_ready : ∀ v ∈ pushed, ∀ b ∈ d.depsOf v, b ∈ st.result ++ [s] := by
    intro v hv b hb
    have h0 := hpushed_deg v hv
    rw [hdegv v, hdeg_new v, List.length_eq_zero, List.filter_eq_nil_iff] at h0
    have h2 : b ∉ st.result → b = s := by
      simpa [List.contains, List.elem_eq_mem] using h0 b hb
    rw [List.mem_append, List.mem_singleton]
    by_cases hbr : b ∈ st.result
    · exact Or.inl hbr
    · exact Or.inr (h2 hbr)
  have hpushed_not_res : ∀ v ∈ pushed, v ∉ st.result ++ [s] := by
    intro v hv hmem
    obtain ⟨hpos, heq⟩ := (hCH v).1 hv
    rw [hin] at heq
    rw [List.mem_append, List.mem_singleton] at hmem
    rcases hmem with hmem | rfl
    · have h0 : st.inDeg v = 0 :=
        deg_zero_of_deps_in_result inv (inv.result_deps v hmem)
      omega
    · have h0 : st.inDeg v = 0 :=
        deg_zero_of_deps_in_result inv (inv.queue_ready v hs_queue)
      omega
  refine ⟨?_, ?_, ?_, ?_, ?_, ?_, ?_, ?_, ?_⟩
  · -- result_nodup
    rw [hres]
    refine List.Nodup.append inv.result_nodup (by simp) ?_
    rw [List.disjoint_left]
    intro a ha hmem
    rw [List.mem_singleton] at hmem
    subst hmem
    exact hs_not_result ha
  · -- queue_nodup
    rw [hqueue]
    refine List.Nodup.append hrest_nodup hND ?_
    rw [List.disjoint_left]
    intro v hvr hvp
    obtain ⟨hpos, heq⟩ := (hCH v).1 hvp
    rw [hin] at heq
    have h0 : st.inDeg v = 0 := inv.queue_deg_zero v (by rw [hq]; exact List.mem_cons_of_mem _ hvr)
    omega
  · -- disj
    intro v hv
    rw [hqueue, List.mem_append] at hv
    rw [hres]
    rcases hv with hv | hv
    · intro hmem
      rw [List.mem_append, List.mem_singleton] at hmem
      rcases hmem with hmem | rfl
      · exact inv.disj v (by rw [hq]; exact List.mem_cons_of_mem _ hv) hmem
      · exact hs_not_rest hv
    · exact hpushed_not_res v hv
  · -- result_sub
    intro v hv
    rw [hres, List.mem_append, List.mem_singleton] at hv
    rcases hv with hv | rfl
    · exact inv.result_sub v hv
    · exact hs_names
  · -- queue_sub
    intro v hv
    rw [hqueue, List.mem_append] at hv
    rcases hv with hv | hv
    · exact inv.queue_sub v (by rw [hq]; exact List.mem_cons_of_mem _ hv)
    · exact hpushed_names v hv
  · -- deg
    intro v
    rw [hdegv v, hdeg_new v, hres]
  · -- sorted
    intro r₁ a r₂ hsplit b hb
    rw [hres] at hsplit
    rcases List.eq_nil_or_concat' r₂ with rfl | ⟨r₂', x, rfl⟩
    · obtain ⟨h1, h2⟩ := List.append_inj' hsplit (by simp)
      have ha : s = a := by simpa using h2
      subst ha
      subst h1
      exact inv.queue_ready s hs_queue b hb
    · have hsplit' : (r₁ ++ a :: r₂') ++ [x] = st.result ++ [s] := by
        simp only [List.append_assoc, List.cons_append, List.nil_append]
        exact hsplit.symm
      obtain ⟨h1, _⟩ := List.append_inj' hsplit' (by simp)
      exact inv.sorted r₁ a r₂' h1.symm b hb
  · -- queue_ready
    intro v hv b hb
    rw [hqueue, List.mem_append] at hv
    rw [hres]
    rcases hv with hv | hv
    · exact List.mem_append.2 (Or.inl
        (inv.queue_ready v (by rw [hq]; exact List.mem_cons_of_mem _ hv) b hb))
    · exact hpushed_ready v hv b hb
  · -- pending_pos
    intro v hvnames hvres hvq
    rw [hres, List.mem_append, List.mem_singleton] at hvres
    rw [hqueue, List.mem_append] at hvq
    push_neg at hvres hvq
    have hold : st.inDeg v ≠ 0 := by
      refine inv.pending_pos v hvnames hvres.1 ?_
      rw [hq, List.mem_cons]
      push_neg
      exact ⟨hvres.2, hvq.1⟩
    have hnotpushed : ¬ (0 < (d.dependentsOf s).count v
        ∧ st.inDeg v = (d.dependentsOf s).count v) := by
      intro hcontra
      exact hvq.2 ((hCH v).2 (by rw [hin]; exact hcontra))
    have hle := hcount v
    rw [hin] at hle
    rw [hdegv v]
    omega

theorem foldl_processDependent_result (l : List String) (st : KahnState) :
    (l.foldl processDependent st).result = st.result := by
  induction l generalizing st with
  | nil => rfl
  | cons a t ih =>
    rw [List.foldl_cons, ih]
    rfl

/-- Running the dequeue loop from an invariant state with enough fuel always
drains the queue, preserves the invariant, and returns the final `result`. -/
theorem kahnLoop_spec (d : StackDefinition) (hnd : d.get_service_names.Nodup) :
    ∀ fuel (st : KahnState), KahnInv d st →
      d.get_service_names.length ≤ fuel + st.result.length →
      ∃ fin : KahnState, kahnLoop d fuel st = fin.result ∧ KahnInv d fin ∧ fin.queue = [] := by
  intro fuel
  induction fuel with
  | zero =>
    intro st inv hlen
    refine ⟨st, rfl, inv, ?_⟩
    have hsub : List.Subperm (st.result ++ st.queue) d.get_service_names := by
      refine List.subperm_of_subset ?_ ?_
      · exact List.Nodup.append inv.result_nodup inv.queue_nodup
          (List.disjoint_left.2 (fun a ha hq => inv.disj a hq ha))
      · intro a ha
        rcases List.mem_append.1 ha with h | h
        · exact inv.result_sub a h
        · exact inv.queue_sub a h
    have hle := hsub.length_le
    rw [List.length_append] at hle
    have hq0 : st.queue.length = 0 := by omega
    exact List.length_eq_zero.1 hq0
  | succ fuel ih =>
    intro st inv hlen
    obtain ⟨dg, qu, res⟩ := st
    cases qu with
    | nil => exact ⟨⟨dg, [], res⟩, rfl, inv, rfl⟩
    | cons s rest =>
      have inv2 : KahnInv d (kahnStep d ⟨dg, rest, res ++ [s]⟩ s) :=
        kahnStep_inv d hnd inv rfl
      have hres2 : (kahnStep d ⟨dg, rest, res ++ [s]⟩ s).result = res ++ [s] :=
        foldl_processDependent_result _ _
      obtain ⟨fin, hfin, hinv, hqe⟩ := ih (kahnStep d ⟨dg, rest, res ++ [s]⟩ s) inv2 (by
        rw [hres2, List.length_append]
        simp only [List.length_cons, List.length_singleton] at hlen ⊢
        omega)
      exact ⟨fin, hfin, hinv, hqe⟩

theorem kahnInit_inv (d : StackDefinition) (σ : List String)
    (hperm : σ.Perm d.get_service_names) (hnd : d.get_service_names.Nodup) :
    KahnInv d { inDeg := initialInDegree d, queue := initialQueue σ d, result := [] } := by
  have hσnd : σ.Nodup := hperm.nodup_iff.2 hnd
  refine ⟨List.nodup_nil, hσnd.filter _, ?_, ?_, ?_, ?_, ?_, ?_, ?_⟩
  · intro v _
    exact List.not_mem_nil v
  · intro v hv
    exact absurd hv (List.not_mem_nil v)
  · intro v hv
    exact hperm.mem_iff.1 (List.mem_of_mem_filter hv)
  · intro v
    show initialInDegree d v = _
    rw [initialInDegree]
    have hfil : (d.depsOf v).filter (fun b => !(([] : List String).contains b)) = d.depsOf v :=
      List.filter_eq_self.2 (fun a _ => rfl)
    rw [hfil]
  · intro r₁ a r₂ h
    exact absurd h (by simp)
  · intro v hv b hb
    rw [initialQueue, List.mem_filter] at hv
    have h0 : initialInDegree d v = 0 := by simpa using hv.2
    rw [initialInDegree, List.length_eq_zero] at h0
    rw [h0] at hb
    exact absurd hb (List.not_mem_nil b)
  · intro v hvn _ hvq h0
    apply hvq
    rw [initialQueue, List.mem_filter]
    exact ⟨hperm.mem_iff.2 hvn, by simp [show initialInDegree d v = 0 from h0]⟩

/-- In a finite set of services in which every member has a dependency inside
the set, the `depends_on` graph has a cycle (follow chosen dependencies and
apply the pigeonhole principle). -/
theorem hasCycle_of_closed (d : StackDefinition) (S : List String) (v₀ : String)
    (hv₀ : v₀ ∈ S) (hsucc : ∀ v ∈ S, ∃ w, w ∈ S ∧ d.DependsOn v w) : d.HasCycle := by
  classical
  choose f hfS hfE using hsucc
  let g : ℕ → {v // v ∈ S} := fun n =>
    Nat.rec ⟨v₀, hv₀⟩ (fun _ p => ⟨f p.1 p.2, hfS p.1 p.2⟩) n
  have hstep : ∀ n, d.DependsOn (g n).1 (g (n + 1)).1 := fun n => hfE (g n).1 (g n).2
  have hchain : ∀ i k, Relation.TransGen d.DependsOn (g i).1 (g (i + k + 1)).1 := by
    intro i k
    induction k with
    | zero => exact Relation.TransGen.single (hstep i)
    | succ k ihk => exact Relation.TransGen.tail ihk (hstep (i + k + 1))
  let g' : ℕ → {x // x ∈ S.toFinset} := fun n => ⟨(g n).1, List.mem_toFinset.2 (g n).2⟩
  obtain ⟨i, j, hij, hgij⟩ := Finite.exists_ne_map_eq_of_infinite g'
  have hval : (g i).1 = (g j).1 := by
    have hv := congrArg Subtype.val hgij
    exact hv
  rcases lt_trichotomy i j with h | h | h
  · have htg : Relation.TransGen d.DependsOn (g i).1 (g j).1 := by
      have hk : j = i + (j - i - 1) + 1 := by omega
      rw [hk]
      exact hchain i (j - i - 1)
    rw [hval] at htg
    exact ⟨(g j).1, htg⟩
  · exact absurd h hij
  · have htg : Relation.TransGen d.DependsOn (g j).1 (g i).1 := by
      have hk : i = j + (i - j - 1) + 1 := by omega
      rw [hk]
      exact hchain j (i - j - 1)
    rw [hval] at htg
    exact ⟨(g j).1, htg⟩

/-! ### Analysis of `build_deployment_order` -/

theorem findUndefinedDep_eq_none_iff (d : StackDefinition) :
    d.findUndefinedDep = none ↔ d.WellFormedDeps := by
  rw [StackDefinition.findUndefinedDep, List.findSome?_eq_none_iff]
  constructor
  · intro h n hn b hb
    have hfn := h n hn
    rw [Option.map_eq_none'] at hfn
    rw [List.find?_eq_none] at hfn
    have := hfn b hb
    simpa [List.contains, List.elem_eq_mem] using this
  · intro hwf n hn
    rw [Option.map_eq_none', List.find?_eq_none]
    intro b hb
    simp [List.contains, List.elem_eq_mem, hwf n hn b hb]

/-- A nodup order in which every dependency precedes its dependent certifies
acyclicity (rank services by their index in the order). -/
theorem acyclic_of_appearsBefore (d : StackDefinition) (order : List String)
    (hnd : order.Nodup) (h : ∀ a b, d.DependsOn a b → appearsBefore order b a) :
    d.Acyclic := by
  have hrank : ∀ a b, d.DependsOn a b → order.indexOf b < order.indexOf a := by
    intro a b hab
    obtain ⟨l₁, l₂, hsplit, hb⟩ := h a b hab
    have hanotl₁ : a ∉ l₁ := by
      intro hmem
      have hnd2 := hnd
      rw [hsplit] at hnd2
      exact (List.disjoint_of_nodup_append hnd2) hmem (List.mem_cons_self a l₂)
    rw [hsplit, List.indexOf_append_of_mem hb, List.indexOf_append_of_not_mem hanotl₁,
      List.indexOf_cons_self]
    have := List.indexOf_lt_length.2 hb
    omega
  rintro ⟨v, htg⟩
  have hmono : ∀ x y, Relation.TransGen d.DependsOn x y →
      order.indexOf y < order.indexOf x := by
    intro x y hxy
    induction hxy with
    | single h1 => exact hrank _ _ h1
    | tail _ h1 ih => exact lt_trans (hrank _ _ h1) ih
  exact absurd (hmono v v htg) (lt_irrefl _)

/-- Core success analysis: for a nonempty, well-formed, acyclic definition,
`build_deployment_order` succeeds (under any `HashMap` iteration order that
is a permutation of the service names) and stores an order that is a
duplicate-free permutation of the services respecting every edge. -/
theorem build_deployment_order_ok (d : StackDefinition) (σ : List String)
    (hperm : σ.Perm d.get_service_names) (hnd : d.get_service_names.Nodup)
    (hwf : d.WellFormedDeps) (hacyc : d.Acyclic) (hne : d.get_service_names ≠ []) :
    ∃ order : List String,
      d.build_deployment_order σ =
        ({ d with runtime_config := { d.runtime_config with deployment_order := order } },
         none) ∧
      order.Perm d.get_service_names ∧ order.Nodup ∧
      ∀ a b, d.DependsOn a b → appearsBefore order b a := by
  obtain ⟨fin, hfin, finv, hfq⟩ := kahnLoop_spec d hnd d.get_service_names.length
    { inDeg := initialInDegree d, queue := initialQueue σ d, result := [] }
    (kahnInit_inv d σ hperm hnd) (by simp)
  have hcomplete : ∀ v ∈ d.get_service_names, v ∈ fin.result := by
    by_contra hcon
    push_neg at hcon
    obtain ⟨v, hvn, hvr⟩ := hcon
    have hvP : v ∈ d.get_service_names.filter (fun u => !(fin.result.contains u)) := by
      rw [List.mem_filter]
      exact ⟨hvn, by simp [List.contains, List.elem_eq_mem, hvr]⟩
    have hsucc : ∀ u ∈ d.get_service_names.filter (fun u => !(fin.result.contains u)),
        ∃ w, w ∈ d.get_service_names.filter (fun u => !(fin.result.contains u))
          ∧ d.DependsOn u w := by
      intro u hu
      rw [List.mem_filter] at hu
      have hun : u ∈ d.get_service_names := hu.1
      have hur : u ∉ fin.result := by
        have h2 := hu.2
        simpa [List.contains, List.elem_eq_mem] using h2
      have hpos := finv.pending_pos u hun hur (by rw [hfq]; exact List.not_mem_nil u)
      rw [finv.deg u] at hpos
      have hnil : (d.depsOf u).filter (fun b => !(fin.result.contains b)) ≠ [] := by
        intro hnil
        rw [hnil] at hpos
        exact hpos rfl
      obtain ⟨b, hbf⟩ := List.exists_mem_of_ne_nil _ hnil
      rw [List.mem_filter] at hbf
      have hbdep : b ∈ d.depsOf u := hbf.1
      have hbr : b ∉ fin.result := by
        have h2 := hbf.2
        simpa [List.contains, List.elem_eq_mem] using h2
      refine ⟨b, ?_, hbdep⟩
      rw [List.mem_filter]
      exact ⟨hwf u hun b hbdep, by simp [List.contains, List.elem_eq_mem, hbr]⟩
    exact hacyc (hasCycle_of_closed d _ v hvP hsucc)
  have hsub : List.Subperm fin.result d.get_service_names :=
    List.subperm_of_subset finv.result_nodup finv.result_sub
  have hsub2 : List.Subperm d.get_service_names fin.result :=
    List.subperm_of_subset hnd hcomplete
  have hperm2 : fin.result.Perm d.get_service_names :=
    List.Subperm.perm_of_length_le hsub hsub2.length_le
  have hlen : fin.result.length = d.get_service_names.length := hperm2.length_eq
  have hsorted : ∀ a b, d.DependsOn a b → appearsBefore fin.result b a := by
    intro a b hab
    have ha : a ∈ fin.result := hcomplete a (mem_names_of_dependsOn hab)
    obtain ⟨l₁, l₂, hsplit⟩ := List.append_of_mem ha
    exact ⟨l₁, l₂, hsplit, finv.sorted l₁ a l₂ hsplit b hab⟩
  refine ⟨fin.result, ?_, hperm2, finv.result_nodup, hsorted⟩
  have hfind : d.findUndefinedDep = none := (findUndefinedDep_eq_none_iff d).2 hwf
  rw [StackDefinition.build_deployment_order]
  simp only [List.isEmpty_eq_false.2 hne, hfind, hfin, Bool.false_eq_true, if_false]
  rw [if_neg (fun hcon => hcon hlen)]

/-- Core cycle analysis: a cyclic definition makes `build_deployment_order`
fail with a `Configuration` error — the circular-dependency message when all
referenced dependencies are defined — leaving the definition untouched. -/
theorem build_deployment_order_cycle (d : StackDefinition) (σ : List String)
    (hperm : σ.Perm d.get_service_names) (hnd : d.get_service_names.Nodup)
    (hcyc : d.HasCycle) :
    (d.build_deployment_order σ).1 = d ∧
    ∃ m, (d.build_deployment_order σ).2 = some (DockerPyo3Error.Configuration m) ∧
      (d.WellFormedDeps → m = ConfigMsg.circularDependency) := by
  have hne : d.get_service_names ≠ [] := by
    obtain ⟨v, htg⟩ := hcyc
    have hout : ∀ a b, Relation.TransGen d.DependsOn a b → ∃ c, d.DependsOn a c := by
      intro a b h
      induction h with
      | single h1 => exact ⟨_, h1⟩
      | tail _ _ ih => exact ih
    obtain ⟨c, hc⟩ := hout v v htg
    intro hnil
    have := mem_names_of_dependsOn hc
    rw [hnil] at this
    exact (List.not_mem_nil v) this
  rcases hfind : d.findUndefinedDep with _ | nd
  · -- no missing dependency: the Kahn loop must come up short
    have hwf : d.WellFormedDeps := (findUndefinedDep_eq_none_iff d).1 hfind
    obtain ⟨fin, hfin, finv, hfq⟩ := kahnLoop_spec d hnd d.get_service_names.length
      { inDeg := initialInDegree d, queue := initialQueue σ d, result := [] }
      (kahnInit_inv d σ hperm hnd) (by simp)
    have hshort : fin.result.length ≠ d.get_service_names.length := by
      intro hlen
      have hsub : List.Subperm fin.result d.get_service_names :=
        List.subperm_of_subset finv.result_nodup finv.result_sub
      have hperm2 : fin.result.Perm d.get_service_names :=
        List.Subperm.perm_of_length_le hsub (le_of_eq hlen.symm)
      have hsorted : ∀ a b, d.DependsOn a b → appearsBefore fin.result b a := by
        intro a b hab
        have ha : a ∈ fin.result := hperm2.mem_iff.2 (mem_names_of_dependsOn hab)
        obtain ⟨l₁, l₂, hsplit⟩ := List.append_of_mem ha
        exact ⟨l₁, l₂, hsplit, finv.sorted l₁ a l₂ hsplit b hab⟩
      exact acyclic_of_appearsBefore d fin.result finv.result_nodup hsorted hcyc
    constructor
    · rw [StackDefinition.build_deployment_order]
      simp only [List.isEmpty_eq_false.2 hne, hfind, hfin]
      rw [if_neg (by simp), if_pos hshort]
    · refine ⟨ConfigMsg.circularDependency, ?_, fun _ => rfl⟩
      rw [StackDefinition.build_deployment_order]
      simp only [List.isEmpty_eq_false.2 hne, hfind, hfin]
      rw [if_neg (by simp), if_pos hshort]
  · -- a missing dependency is reported first
    constructor
    · rw [StackDefinition.build_deployment_order]
      simp only [List.isEmpty_eq_false.2 hne, hfind]
      rw [if_neg (by simp)]
    · refine ⟨ConfigMsg.missingDep nd.1 nd.2, ?_, fun hwf => ?_⟩
      · rw [StackDefinition.build_deployment_order]
        simp only [List.isEmpty_eq_false.2 hne, hfind]
        rw [if_neg (by simp)]
      · exact absurd hfind (by rw [(findUndefinedDep_eq_none_iff d).2 hwf]; simp)

/-! ### Map-model lemmas -/

theorem alookup_append {α : Type} (k : String) (l1 l2 : List (String × α)) :
    alookup k (l1 ++ l2) =
      match alookup k l1 with
      | some v => some v
      | none => alookup k l2 := by
  induction l1 with
  | nil => simp [alookup]
  | cons p t ih => by_cases h : k = p.1 <;> simp [alookup, h, ih]

theorem any_key_iff {α : Type} (m : List (String × α)) (k : String) :
    (m.any fun p => p.1 == k) = true ↔ k ∈ m.map Prod.fst := by
  rw [List.any_eq_true, List.mem_map]
  constructor
  · rintro ⟨p, hp, he⟩
    exact ⟨p, hp, by simpa using he⟩
  · rintro ⟨p, hp, he⟩
    exact ⟨p, hp, by simp [he]⟩

theorem alookup_isSome_iff {α : Type} (m : List (String × α)) (k : String) :
    (alookup k m).isSome = true ↔ k ∈ m.map Prod.fst := by
  constructor
  · intro h
    rcases hs : alookup k m with _ | v
    · rw [hs] at h
      simp at h
    · have := alookup_mem hs
      rw [List.mem_map]
      exact ⟨(k, v), this, rfl⟩
  · intro h
    rcases hs : alookup k m with _ | v
    · exact absurd (alookup_eq_none.1 hs) (by simpa using h)
    · simp

theorem alookup_map_replace {α : Type} (m : List (String × α)) (k : String) (v : α) :
    alookup k (m.map fun p => if p.1 == k then (k, v) else p) =
      if (alookup k m).isSome then some v else none := by
  induction m with
  | nil => simp [alookup]
  | cons p t ih =>
    obtain ⟨p1, p2⟩ := p
    by_cases hp : p1 = k
    · subst hp
      simp [alookup]
    · have hbe : (p1 == k) = false := by simp [hp]
      have hke : ¬ k = p1 := fun h => hp h.symm
      simp only [List.map_cons, alookup, hbe, Bool.false_eq_true, if_false]
      rw [if_neg hke, if_neg hke]
      exact ih

theorem alookup_map_replace_isSome {α : Type} (m : List (String × α)) (k k2 : String) (v : α) :
    (alookup k2 (m.map fun p => if p.1 == k then (k, v) else p)).isSome
      = (alookup k2 m).isSome := by
  induction m with
  | nil => rfl
  | cons p t ih =>
    obtain ⟨p1, p2⟩ := p
    rw [List.map_cons]
    by_cases h2 : k2 = p1
    · subst h2
      by_cases hp : k2 = k
      · have hbe : ((k2, p2).1 == k) = true := by simp [hp]
        rw [if_pos hbe, alookup, alookup,
          if_pos (show k2 = (k, v).1 from hp), if_pos (show k2 = (k2, p2).1 from rfl)]
        rfl
      · have hbe : ((k2, p2).1 == k) = false := by simp [hp]
        rw [if_neg (by simp [hbe]), alookup, alookup,
          if_pos (show k2 = (k2, p2).1 from rfl), if_pos (show k2 = (k2, p2).1 from rfl)]
    · by_cases hp : p1 = k
      · have hbe : ((p1, p2).1 == k) = true := by simp [hp]
        rw [if_pos hbe, alookup, alookup,
          if_neg (show ¬ k2 = (k, v).1 from fun h => h2 (by rw [hp]; exact h)),
          if_neg (show ¬ k2 = (p1, p2).1 from h2)]
        exact ih
      · have hbe : ((p1, p2).1 == k) = false := by simp [hp]
        rw [if_neg (by simp [hbe]), alookup, alookup,
          if_neg (show ¬ k2 = (p1, p2).1 from h2), if_neg (show ¬ k2 = (p1, p2).1 from h2)]
        exact ih

theorem alookup_map_replace_other {α : Type} (m : List (String × α)) (k k2 : String)
    (v : α) (hne : k2 ≠ k) :
    alookup k2 (m.map fun p => if p.1 == k then (k, v) else p) = alookup k2 m := by
  induction m with
  | nil => rfl
  | cons p t ih =>
    obtain ⟨p1, p2⟩ := p
    rw [List.map_cons]
    by_cases hp : p1 = k
    · have hbe : ((p1, p2).1 == k) = true := by simp [hp]
      rw [if_pos hbe, alookup, alookup,
        if_neg (show ¬ k2 = (k, v).1 from hne),
        if_neg (show ¬ k2 = (p1, p2).1 from fun h => hne (h.trans hp))]
      exact ih
    · have hbe : ((p1, p2).1 == k) = false := by simp [hp]
      rw [if_neg (by simp [hbe]), alookup, alookup]
      by_cases h2 : k2 = p1
      · rw [if_pos (show k2 = (p1, p2).1 from h2), if_pos (show k2 = (p1, p2).1 from h2)]
      · rw [if_neg (show ¬ k2 = (p1, p2).1 from h2), if_neg (show ¬ k2 = (p1, p2).1 from h2)]
        exact ih

theorem alookup_indexMapInsert_self {α : Type} (m : List (String × α)) (k : String) (v : α) :
    alookup k (indexMapInsert m k v) = some v := by
  rw [indexMapInsert]
  by_cases hany : (m.any fun p => p.1 == k) = true
  · rw [if_pos hany, alookup_map_replace,
      if_pos ((alookup_isSome_iff m k).2 ((any_key_iff m k).1 hany))]
  · rw [if_neg hany, alookup_append]
    have hnone : alookup k m = none := by
      rw [alookup_eq_none]
      intro hmem
      exact hany ((any_key_iff m k).2 hmem)
    rw [hnone]
    simp [alookup]

theorem alookup_indexMapInsert_isSome {α : Type} (m : List (String × α)) (k k2 : String)
    (v : α) (h : (alookup k2 m).isSome = true) :
    (alookup k2 (indexMapInsert m k v)).isSome = true := by
  rw [indexMapInsert]
  by_cases hany : (m.any fun p => p.1 == k) = true
  · rw [if_pos hany, alookup_map_replace_isSome]
    exact h
  · rw [if_neg hany, alookup_append]
    rcases hs : alookup k2 m with _ | w
    · rw [hs] at h
      simp at h
    · simp

theorem alookup_indexMapInsert_other {α : Type} (m : List (String × α)) (k k2 : String)
    (v : α) (hne : k2 ≠ k) :
    alookup k2 (indexMapInsert m k v) = alookup k2 m := by
  rw [indexMapInsert]
  by_cases hany : (m.any fun p => p.1 == k) = true
  · rw [if_pos hany]
    exact alookup_map_replace_other m k k2 v hne
  · rw [if_neg hany, alookup_append]
    rcases hs : alookup k2 m with _ | w
    · simp [alookup, hne]
    · simp

/-! ### `down` teardown-order lemmas -/

theorem teardownServices_append (t1 t2 : List DockerAction) :
    teardownServices (t1 ++ t2) = teardownServices t1 ++ teardownServices t2 := by
  induction t1 with
  | nil => rfl
  | cons a t ih => cases a <;> simp [teardownServices, ih]

theorem teardownServices_eq_nil {tr : List DockerAction}
    (h : ∀ m, DockerAction.teardownService m ∉ tr) : teardownServices tr = [] := by
  induction tr with
  | nil => rfl
  | cons a t ih =>
    have ht : ∀ m, DockerAction.teardownService m ∉ t :=
      fun m hm => h m (List.mem_cons_of_mem _ hm)
    cases a with
    | teardownService m => exact absurd (List.mem_cons_self _ _) (h m)
    | stopContainer i => exact ih ht
    | removeContainer i => exact ih ht
    | deleteNetwork i => exact ih ht
    | deleteVolume i => exact ih ht

theorem remove_service_containers_trace (o : DockerOracle) (s : Pyo3Stack) (n : String) :
    teardownServices (s.remove_service_containers o n).2 = [n] := by
  rw [Pyo3Stack.remove_service_containers]
  rcases halo : alookup n s.state.containers with _ | ids
  · rfl
  · show teardownServices (DockerAction.teardownService n :: _) = [n]
    rw [teardownServices]
    have hnil : teardownServices
        (ids.flatMap fun cid =>
          match o.getContainer cid with
          | .error _ => []
          | .ok _ => [DockerAction.stopContainer cid, DockerAction.removeContainer cid]) = [] := by
      apply teardownServices_eq_nil
      intro m hmem
      rw [List.mem_flatMap] at hmem
      obtain ⟨cid, _, hmem⟩ := hmem
      rcases hg : o.getContainer cid with e | u <;> rw [hg] at hmem
      · exact absurd hmem (List.not_mem_nil _)
      · rcases hmem with _ | ⟨_, hmem2⟩
        · rcases hmem2 with _ | ⟨_, hmem3⟩
          exact absurd hmem3 (List.not_mem_nil _)
    rw [hnil]

theorem remove_service_containers_definition (o : DockerOracle) (s : Pyo3Stack) (n : String) :
    (s.remove_service_containers o n).1.definition = s.definition := by
  rw [Pyo3Stack.remove_service_containers]
  rcases alookup n s.state.containers with _ | ids <;> rfl

theorem downGo_services (o : DockerOracle) :
    ∀ (l : List String) (s : Pyo3Stack), teardownServices (downGo o l s).2 = l := by
  intro l
  induction l with
  | nil => intro s; rfl
  | cons n rest ih =>
    intro s
    show teardownServices ((s.remove_service_containers o n).2
      ++ (downGo o rest (s.remove_service_containers o n).1).2) = n :: rest
    rw [teardownServices_append, remove_service_containers_trace, ih]
    rfl

theorem downGo_definition (o : DockerOracle) :
    ∀ (l : List String) (s : Pyo3Stack), (downGo o l s).1.definition = s.definition := by
  intro l
  induction l with
  | nil => intro s; rfl
  | cons n rest ih =>
    intro s
    show (downGo o rest (s.remove_service_containers o n).1).1.definition = s.definition
    rw [ih, remove_service_containers_definition]

theorem teardownServices_remove_networks (o : DockerOracle) (s : Pyo3Stack) :
    teardownServices (s.remove_networks o).2 = [] := by
  rw [Pyo3Stack.remove_networks]
  apply teardownServices_eq_nil
  intro m hmem
  rw [List.mem_flatMap] at hmem
  obtain ⟨p, _, hmem⟩ := hmem
  rcases hg : o.getNetwork p.2 with e | u <;> rw [hg] at hmem
  · exact absurd hmem (List.not_mem_nil _)
  · rw [List.mem_singleton] at hmem
    exact absurd hmem (by intro hcon; cases hcon)

theorem teardownServices_remove_volumes (o : DockerOracle) (s : Pyo3Stack) :
    teardownServices (s.remove_volumes o).2 = [] := by
  rw [Pyo3Stack.remove_volumes]
  apply teardownServices_eq_nil
  intro m hmem
  rw [List.mem_flatMap] at hmem
  obtain ⟨p, _, hmem⟩ := hmem
  rcases hg : o.getVolume p.2 with e | u <;> rw [hg] at hmem
  · exact absurd hmem (List.not_mem_nil _)
  · rw [List.mem_singleton] at hmem
    exact absurd hmem (by intro hcon; cases hcon)

/-- `down` visits services in exactly the reverse of the stored deployment
order. -/
theorem down_teardown_order (o : DockerOracle) (s : Pyo3Stack) :
    teardownServices (Pyo3Stack.down o s).2.2
      = s.definition.runtime_config.deployment_order.reverse := by
  show teardownServices
    ((downGo o s.definition.runtime_config.deployment_order.reverse s).2
      ++ ((downGo o s.definition.runtime_config.deployment_order.reverse s).1.remove_networks o).2
      ++ (((downGo o s.definition.runtime_config.deployment_order.reverse s).1.remove_networks o).1.remove_volumes o).2) = _
  rw [teardownServices_append, teardownServices_append, downGo_services,
    teardownServices_remove_networks, teardownServices_remove_volumes]
  simp

/-! ### Error paths of `build_deployment_order` leave the definition alone -/

theorem build_cases (σ : List String) (d : StackDefinition) :
    (∃ e, d.build_deployment_order σ = (d, some e)) ∨
    (d.build_deployment_order σ).2 = none := by
  rw [StackDefinition.build_deployment_order]
  by_cases hie : d.get_service_names.isEmpty = true
  · right
    simp [hie]
  · rw [if_neg hie]
    rcases hfind : d.findUndefinedDep with _ | nd
    · by_cases hl : (kahnLoop d d.get_service_names.length
          { inDeg := initialInDegree d, queue := initialQueue σ d, result := [] }).length
            ≠ d.get_service_names.length
      · left
        exact ⟨_, by rw [if_pos hl]⟩
      · right
        rw [if_neg hl]
    · left
      exact ⟨_, rfl⟩

theorem build_err_unchanged (σ : List String) (d : StackDefinition)
    (h : (d.build_deployment_order σ).2.isSome = true) :
    (d.build_deployment_order σ).1 = d := by
  rcases build_cases σ d with ⟨e, heq⟩ | hnone
  · rw [heq]
  · rw [hnone] at h
    simp at h

/-! ### State preservation across the `up` phases -/

theorem createNetworksGo_spec (o : DockerOracle) (nm : String) :
    ∀ (l : List (String × Bool)) (st : StackState),
      (createNetworksGo o nm l st).1.containers = st.containers ∧
      (createNetworksGo o nm l st).1.volumes = st.volumes ∧
      (createNetworksGo o nm l st).1.status = st.status := by
  intro l
  induction l with
  | nil => intro st; exact ⟨rfl, rfl, rfl⟩
  | cons p rest ih =>
    intro st
    obtain ⟨networkName, hasCfg⟩ := p
    rw [createNetworksGo]
    by_cases hc : hasCfg = true
    · rw [if_pos hc]
      rcases o.createNetwork (nm ++ "_" ++ networkName) with e | nid
      · exact ⟨rfl, rfl, rfl⟩
      · exact ih { st with networks := indexMapInsert st.networks networkName nid }
    · rw [if_neg hc]
      exact ih st

theorem createVolumesGo_spec (o : DockerOracle) (nm : String) :
    ∀ (l : List (String × Bool)) (st : StackState),
      (createVolumesGo o nm l st).1.containers = st.containers ∧
      (createVolumesGo o nm l st).1.networks = st.networks ∧
      (createVolumesGo o nm l st).1.status = st.status := by
  intro l
  induction l with
  | nil => intro st; exact ⟨rfl, rfl, rfl⟩
  | cons p rest ih =>
    intro st
    obtain ⟨volumeName, hasCfg⟩ := p
    rw [createVolumesGo]
    by_cases hc : hasCfg = true
    · rw [if_pos hc]
      rcases o.createVolume (nm ++ "_" ++ volumeName) with e | vid
      · exact ⟨rfl, rfl, rfl⟩
      · exact ih { st with volumes := indexMapInsert st.volumes volumeName vid }
    · rw [if_neg hc]
      exact ih st

theorem create_networks_spec (o : DockerOracle) (s : Pyo3Stack) :
    (s.create_networks o).1.state.containers = s.state.containers ∧
    (s.create_networks o).1.state.volumes = s.state.volumes ∧
    (s.create_networks o).1.state.status = s.state.status ∧
    (s.create_networks o).1.definition = s.definition := by
  obtain ⟨h1, h2, h3⟩ :=
    createNetworksGo_spec o s.definition.name s.definition.compose.networks s.state
  exact ⟨h1, h2, h3, rfl⟩

theorem create_volumes_spec (o : DockerOracle) (s : Pyo3Stack) :
    (s.create_volumes o).1.state.containers = s.state.containers ∧
    (s.create_volumes o).1.state.networks = s.state.networks ∧
    (s.create_volumes o).1.state.status = s.state.status ∧
    (s.create_volumes o).1.definition = s.definition := by
  obtain ⟨h1, h2, h3⟩ :=
    createVolumesGo_spec o s.definition.name s.definition.compose.volumes s.state
  exact ⟨h1, h2, h3, rfl⟩

theorem deploy_single_service_spec (o : DockerOracle) (s : Pyo3Stack) (n : String) :
    (s.deploy_single_service o n).1.state.networks = s.state.networks ∧
    (s.deploy_single_service o n).1.state.volumes = s.state.volumes ∧
    (s.deploy_single_service o n).1.state.status = s.state.status ∧
    (s.deploy_single_service o n).1.definition = s.definition ∧
    ∀ k, (alookup k s.state.containers).isSome = true →
      (alookup k (s.deploy_single_service o n).1.state.containers).isSome = true := by
  rcases hg : s.definition.get_service n with _ | svc
  · simp only [Pyo3Stack.deploy_single_service, hg]
    exact ⟨trivial, trivial, trivial, trivial, fun k h => h⟩
  · rcases hi : svc.image with _ | image
    · simp only [Pyo3Stack.deploy_single_service, hg, hi]
      exact ⟨trivial, trivial, trivial, trivial, fun k h => h⟩
    · rcases hd : deployReplicas o image s.definition.name n
        ((alookup n s.definition.runtime_config.scale_policies).getD 1)
        ((alookup n s.definition.runtime_config.scale_policies).getD 1) 0 [] with e | ids
      · simp only [Pyo3Stack.deploy_single_service, hg, hi, hd]
        exact ⟨trivial, trivial, trivial, trivial, fun k h => h⟩
      · simp only [Pyo3Stack.deploy_single_service, hg, hi, hd]
        exact ⟨trivial, trivial, trivial, trivial, fun k h => alookup_indexMapInsert_isSome _ _ _ _ h⟩

theorem deployServicesGo_spec (o : DockerOracle) :
    ∀ (l : List String) (s : Pyo3Stack),
      (deployServicesGo o l s).1.state.networks = s.state.networks ∧
      (deployServicesGo o l s).1.state.volumes = s.state.volumes ∧
      (deployServicesGo o l s).1.state.status = s.state.status ∧
      (deployServicesGo o l s).1.definition = s.definition ∧
      ∀ k, (alookup k s.state.containers).isSome = true →
        (alookup k (deployServicesGo o l s).1.state.containers).isSome = true := by
  intro l
  induction l with
  | nil => intro s; exact ⟨rfl, rfl, rfl, rfl, fun k h => h⟩
  | cons n rest ih =>
    intro s
    obtain ⟨h1, h2, h3, h4, h5⟩ := deploy_single_service_spec o s n
    show ((deployServicesGo o (n :: rest) s).1.state.networks = s.state.networks) ∧ _
    rw [deployServicesGo]
    rcases hr : (s.deploy_single_service o n).2 with _ | e
    · obtain ⟨g1, g2, g3, g4, g5⟩ := ih (s.deploy_single_service o n).1
      exact ⟨g1.trans h1, g2.trans h2, g3.trans h3, g4.trans h4, fun k h => g5 k (h5 k h)⟩
    · exact ⟨h1, h2, h3, h4, h5⟩

/-! ### `up`: status discipline and absence of rollback -/

theorem up_cases (o : DockerOracle) (s : Pyo3Stack) :
    ((s.up o).2 = none → (s.up o).1.state.status = StackStatus.Running) ∧
    ((s.up o).2.isSome = true → (s.up o).1.state.status = StackStatus.Deploying) ∧
    (∀ k, (alookup k s.state.containers).isSome = true →
      (alookup k (s.up o).1.state.containers).isSome = true) := by
  simp only [Pyo3Stack.up, Pyo3Stack.deploy_services]
  set lit : Pyo3Stack := { s with state := { s.state with status := StackStatus.Deploying } }
    with hlit
  obtain ⟨c1, v1, t1, d1⟩ := create_networks_spec o lit
  rcases h1 : (Pyo3Stack.create_networks o lit).2 with _ | e1
  · obtain ⟨c2, n2, t2, d2⟩ := create_volumes_spec o (Pyo3Stack.create_networks o lit).1
    rcases h2 : (Pyo3Stack.create_volumes o (Pyo3Stack.create_networks o lit).1).2 with _ | e2
    · obtain ⟨g1, g2, g3, g4, g5⟩ := deployServicesGo_spec o
        (Pyo3Stack.create_volumes o
          (Pyo3Stack.create_networks o lit).1).1.definition.runtime_config.deployment_order
        (Pyo3Stack.create_volumes o (Pyo3Stack.create_networks o lit).1).1
      rcases h3 : (deployServicesGo o
          (Pyo3Stack.create_volumes o
            (Pyo3Stack.create_networks o lit).1).1.definition.runtime_config.deployment_order
          (Pyo3Stack.create_volumes o (Pyo3Stack.create_networks o lit).1).1).2 with _ | e3
      · refine ⟨fun _ => rfl, ?_, ?_⟩
        · intro habs; exact Bool.noConfusion habs
        · intro k hk
          exact g5 k (by rw [c2, c1]; exact hk)
      · refine ⟨?_, ?_, ?_⟩
        · intro habs; exact Option.noConfusion habs
        · intro _
          show (deployServicesGo o
              (Pyo3Stack.create_volumes o
                (Pyo3Stack.create_networks o lit).1).1.definition.runtime_config.deployment_order
              (Pyo3Stack.create_volumes o
                (Pyo3Stack.create_networks o lit).1).1).1.state.status = StackStatus.Deploying
          rw [g3, t2, t1]
        · intro k hk
          exact g5 k (by rw [c2, c1]; exact hk)
    · refine ⟨?_, ?_, ?_⟩
      · intro habs; exact Option.noConfusion habs
      · intro _
        show (Pyo3Stack.create_volumes o
            (Pyo3Stack.create_networks o lit).1).1.state.status = StackStatus.Deploying
        rw [t2, t1]
      · intro k hk
        show (alookup k (Pyo3Stack.create_volumes o
            (Pyo3Stack.create_networks o lit).1).1.state.containers).isSome = true
        rw [c2, c1]; exact hk
  · refine ⟨?_, ?_, ?_⟩
    · intro habs; exact Option.noConfusion habs
    · intro _
      show (Pyo3Stack.create_networks o lit).1.state.status = StackStatus.Deploying
      rw [t1]
    · intro k hk
      show (alookup k (Pyo3Stack.create_networks o lit).1.state.containers).isSome = true
      rw [c1]; exact hk

/-! ### mod.rs `scale`: pop-from-the-end semantics -/

theorem popStopRemove_spec :
    ∀ (k : Nat) (ids : List String), k ≤ ids.length →
      popStopRemove k ids =
        (ids.take (ids.length - k),
         (ids.drop (ids.length - k)).reverse.flatMap
           (fun cid => [ScaleAction.stop cid, ScaleAction.removeForce cid])) := by
  intro k
  induction k with
  | zero =>
    intro ids _
    rw [popStopRemove, Nat.sub_zero, List.take_length, List.drop_length]
    rfl
  | succ k ih =>
    intro ids hk
    rcases List.eq_nil_or_concat ids with hnil | ⟨ys, c, hys⟩
    · rw [hnil] at hk
      exact absurd hk (Nat.not_succ_le_zero k)
    subst hys
    rw [List.concat_eq_append] at hk ⊢
    have hlen : (ys ++ [c]).length = ys.length + 1 := by
      rw [List.length_append, List.length_singleton]
    have hk2 : k ≤ ys.length := by omega
    have hsub : (ys ++ [c]).length - (k + 1) = ys.length - k := by omega
    have hsub2 : ys.length - k ≤ ys.length := Nat.sub_le _ _
    rw [popStopRemove, List.getLast?_concat, List.dropLast_concat, ih ys hk2, hsub,
      List.take_append_of_le_length hsub2, List.drop_append_of_le_length hsub2,
      List.reverse_append, List.reverse_singleton]
    rfl

theorem create_service_container_ok (o : DockerOracle) (stk : Pyo3StackM)
    (svc : String) (i : Nat) (hok : (stk.create_service_container o svc i).2 = none) :
    (stk.create_service_container o svc i).1.registered_services = stk.registered_services ∧
    (stk.create_service_container o svc i).1.name = stk.name ∧
    ((alookup svc (stk.create_service_container o svc i).1.state.containers).getD []).length
      = ((alookup svc stk.state.containers).getD []).length + 1 := by
  rcases hs : alookup svc stk.registered_services with _ | s
  · have heq : stk.create_service_container o svc i
        = (stk, some (.valueError (.serviceNotFound svc))) := by
      simp only [Pyo3StackM.create_service_container, hs]
    rw [heq] at hok
    exact Option.noConfusion hok
  · rcases hi : s.image with _ | image
    · have heq : stk.create_service_container o svc i
          = (stk, some (.valueError (.serviceHasNoImage svc))) := by
        simp only [Pyo3StackM.create_service_container, hs, hi]
      rw [heq] at hok
      exact Option.noConfusion hok
    · rcases hc : o.createContainer image (stk.name ++ "_" ++ svc ++ "_" ++ toString i)
        with e | cid
      · have heq : stk.create_service_container o svc i = (stk, some (.docker e)) := by
          simp only [Pyo3StackM.create_service_container, hs, hi, hc]
        rw [heq] at hok
        exact Option.noConfusion hok
      · rcases hst : o.startContainer cid with e | u
        · have heq : stk.create_service_container o svc i = (stk, some (.docker e)) := by
            simp only [Pyo3StackM.create_service_container, hs, hi, hc, hst]
          rw [heq] at hok
          exact Option.noConfusion hok
        · have heq : stk.create_service_container o svc i
              = ({ stk with state :=
                  { stk.state with
                    containers := pushContainer stk.state.containers svc cid } }, none) := by
            simp only [Pyo3StackM.create_service_container, hs, hi, hc, hst]
          rw [heq]
          refine ⟨rfl, rfl, ?_⟩
          show ((alookup svc (pushContainer stk.state.containers svc cid)).getD []).length = _
          rw [pushContainer, alookup_indexMapInsert_self]
          rw [Option.getD_some, List.length_append, List.length_singleton]

theorem scaleUpGo_ok (o : DockerOracle) (svc : String) (cur : Nat) :
    ∀ (k i : Nat) (stk : Pyo3StackM), (scaleUpGo o svc cur k i stk).2 = none →
      (scaleUpGo o svc cur k i stk).1.registered_services = stk.registered_services ∧
      (scaleUpGo o svc cur k i stk).1.name = stk.name ∧
      ((alookup svc (scaleUpGo o svc cur k i stk).1.state.containers).getD []).length
        = ((alookup svc stk.state.containers).getD []).length + k := by
  intro k
  induction k with
  | zero => intro i stk _; exact ⟨rfl, rfl, rfl⟩
  | succ k ih =>
    intro i stk hok
    rcases hr : (stk.create_service_container o svc (cur + i + 1)).2 with _ | e
    · have heq : scaleUpGo o svc cur (k + 1) i stk
          = scaleUpGo o svc cur k (i + 1)
              (stk.create_service_container o svc (cur + i + 1)).1 := by
        simp only [scaleUpGo, hr]
      rw [heq] at hok ⊢
      obtain ⟨p1, p2, p3⟩ := create_service_container_ok o stk svc (cur + i + 1) hr
      obtain ⟨g1, g2, g3⟩ := ih (i + 1) (stk.create_service_container o svc (cur + i + 1)).1 hok
      refine ⟨g1.trans p1, g2.trans p2, ?_⟩
      rw [g3, p3]
      omega
    · have heq : scaleUpGo o svc cur (k + 1) i stk
          = ((stk.create_service_container o svc (cur + i + 1)).1, some e) := by
        simp only [scaleUpGo, hr]
      rw [heq] at hok
      exact Option.noConfusion hok

theorem scale_registered_ne (stk : Pyo3StackM) (svc : String)
    (hreg : (stk.registered_services.any fun p => p.1 == svc) = true) :
    (!(stk.registered_services.any fun p => p.1 == svc)) ≠ true := by
  rw [hreg]
  exact Bool.noConfusion

theorem scale_down_eq (o : DockerOracle) (stk : Pyo3StackM) (svc : String) (m : Nat)
    (ids : List String)
    (hreg : (stk.registered_services.any fun p => p.1 == svc) = true)
    (htrack : alookup svc stk.state.containers = some ids)
    (hm : m < ids.length) :
    stk.scale o svc m =
      ({ stk with state :=
          { stk.state with
            containers := indexMapInsert stk.state.containers svc (ids.take m) } },
       none,
       (ids.drop m).reverse.flatMap
         (fun cid => [ScaleAction.stop cid, ScaleAction.removeForce cid])) := by
  simp only [Pyo3StackM.scale, htrack, Option.getD_some]
  rw [if_neg (scale_registered_ne stk svc hreg)]
  rw [if_neg (show ¬(m = ids.length) by omega)]
  rw [if_neg (show ¬(ids.length < m) by omega)]
  rw [popStopRemove_spec (ids.length - m) ids (Nat.sub_le _ _)]
  rw [Nat.sub_sub_self (Nat.le_of_lt hm)]

theorem scale_ok_length (o : DockerOracle) (stk : Pyo3StackM) (svc : String) (n : Nat)
    (hreg : (stk.registered_services.any fun p => p.1 == svc) = true)
    (hok : (stk.scale o svc n).2.1 = none) :
    ((alookup svc (stk.scale o svc n).1.state.containers).getD []).length = n ∧
    (stk.scale o svc n).1.registered_services = stk.registered_services ∧
    (stk.scale o svc n).1.name = stk.name := by
  by_cases heq : n = ((alookup svc stk.state.containers).getD []).length
  · have hsc : stk.scale o svc n = (stk, none, []) := by
      simp only [Pyo3StackM.scale]
      rw [if_neg (scale_registered_ne stk svc hreg), if_pos heq]
    rw [hsc]
    exact ⟨heq.symm, rfl, rfl⟩
  · by_cases hlt : ((alookup svc stk.state.containers).getD []).length < n
    · have hsc : stk.scale o svc n
          = ((scaleUpGo o svc ((alookup svc stk.state.containers).getD []).length
                (n - ((alookup svc stk.state.containers).getD []).length) 0 stk).1,
             (scaleUpGo o svc ((alookup svc stk.state.containers).getD []).length
                (n - ((alookup svc stk.state.containers).getD []).length) 0 stk).2, []) := by
        simp only [Pyo3StackM.scale]
        rw [if_neg (scale_registered_ne stk svc hreg), if_neg heq, if_pos hlt]
      rw [hsc] at hok ⊢
      obtain ⟨g1, g2, g3⟩ := scaleUpGo_ok o svc
        ((alookup svc stk.state.containers).getD []).length
        (n - ((alookup svc stk.state.containers).getD []).length) 0 stk hok
      refine ⟨?_, g1, g2⟩
      rw [g3]
      omega
    · rcases htrack : alookup svc stk.state.containers with _ | ids
      · exfalso
        rw [htrack] at heq hlt
        simp only [Option.getD_none, List.length_nil] at heq hlt
        omega
      · have hm : n < ids.length := by
          rw [htrack] at heq hlt
          simp only [Option.getD_some] at heq hlt
          omega
        rw [scale_down_eq o stk svc n ids hreg htrack hm]
        refine ⟨?_, rfl, rfl⟩
        show ((alookup svc (indexMapInsert stk.state.containers svc (ids.take n))).getD
            []).length = n
        rw [alookup_indexMapInsert_self, Option.getD_some, List.length_take]
        omega

/-! ### mod.rs `up`: the deploy loop never touches the networks map -/

theorem upDeployGo_networks (o : DockerOracle) (nm : String)
    (services : List (String × SvcSimple.Service)) :
    ∀ (l : List String) (st : StackStateM),
      (upDeployGo o nm services l st).1.networks = st.networks := by
  intro l
  induction l with
  | nil => intro st; rfl
  | cons n rest ih =>
    intro st
    rcases hs : alookup n services with _ | svc
    · have heq : upDeployGo o nm services (n :: rest) st = upDeployGo o nm services rest st := by
        simp only [upDeployGo, hs]
      rw [heq]
      exact ih st
    · rcases hi : svc.image with _ | image
      · have heq : upDeployGo o nm services (n :: rest) st
            = upDeployGo o nm services rest st := by
          simp only [upDeployGo, hs, hi]
        rw [heq]
        exact ih st
      · rcases hc : o.createContainer image (nm ++ "_" ++ n ++ "_1") with er | cid
        · have heq : upDeployGo o nm services (n :: rest) st = (st, some (.docker er)) := by
            simp only [upDeployGo, hs, hi, hc]
          rw [heq]
        · rcases hst2 : o.startContainer cid with er | u
          · have heq : upDeployGo o nm services (n :: rest) st = (st, some (.docker er)) := by
              simp only [upDeployGo, hs, hi, hc, hst2]
            rw [heq]
          · have heq : upDeployGo o nm services (n :: rest) st
                = upDeployGo o nm services rest
                    { st with containers := pushContainer st.containers n cid } := by
              simp only [upDeployGo, hs, hi, hc, hst2]
            rw [heq]
            exact ih _

theorem upAfterNetwork_networks (o : DockerOracle) (σ : List String) (stk : Pyo3StackM)
    (nid : String) :
    alookup "default" (stk.upAfterNetwork o σ nid).1.state.networks = some nid := by
  have hnet := upDeployGo_networks o stk.name stk.registered_services σ
    { stk.state with networks := indexMapInsert stk.state.networks "default" nid }
  simp only [Pyo3StackM.upAfterNetwork]
  rcases hr : (upDeployGo o stk.name stk.registered_services σ
      { stk.state with networks := indexMapInsert stk.state.networks "default" nid }).2
    with _ | e
  · show alookup "default" (upDeployGo o stk.name stk.registered_services σ
        { stk.state with
          networks := indexMapInsert stk.state.networks "default" nid }).1.networks = some nid
    rw [hnet]
    exact alookup_indexMapInsert_self _ _ _
  · show alookup "default" (upDeployGo o stk.name stk.registered_services σ
        { stk.state with
          networks := indexMapInsert stk.state.networks "default" nid }).1.networks = some nid
    rw [hnet]
    exact alookup_indexMapInsert_self _ _ _

/-! ### Claim theorems -/

/-- C1: for every stack definition whose `depends_on` graph is acyclic —
with every referenced dependency defined, unique service keys, any iteration
order of the in-degree map, and no stale order left from an emptied
definition — `build_deployment_order` succeeds and produces a
`deployment_order` that is a valid topological order: it is a permutation of
the services and for every edge (A depends on B), B appears before A; and
`down` tears services down by iterating that order in exact reverse. -/
theorem build_order_topological_and_down_reverse (d : StackDefinition) (σ : List String)
    (o : DockerOracle) (st : StackState)
    (hperm : σ.Perm d.get_service_names) (hnd : d.get_service_names.Nodup)
    (hwf : d.WellFormedDeps) (hacyc : d.Acyclic)
    (hempty : d.get_service_names = [] → d.runtime_config.deployment_order = []) :
    (d.build_deployment_order σ).2 = none ∧
    (d.build_deployment_order σ).1.runtime_config.deployment_order.Perm d.get_service_names ∧
    (∀ a b, d.DependsOn a b →
      appearsBefore (d.build_deployment_order σ).1.runtime_config.deployment_order b a) ∧
    teardownServices (Pyo3Stack.down o ⟨(d.build_deployment_order σ).1, st⟩).2.2
      = (d.build_deployment_order σ).1.runtime_config.deployment_order.reverse := by
  by_cases hne : d.get_service_names = []
  · have hbuild : d.build_deployment_order σ = (d, none) := by
      rw [StackDefinition.build_deployment_order, hne]
      simp
    refine ⟨by rw [hbuild], ?_, ?_, down_teardown_order o _⟩
    · rw [hbuild, hne]
      show d.runtime_config.deployment_order.Perm []
      rw [hempty hne]
    · intro a b hab
      have hmem := mem_names_of_dependsOn hab
      rw [hne] at hmem
      exact absurd hmem (List.not_mem_nil a)
  · obtain ⟨order, heq, hperm2, hnodup2, hsorted⟩ :=
      build_deployment_order_ok d σ hperm hnd hwf hacyc hne
    rw [heq]
    exact ⟨rfl, hperm2, hsorted, down_teardown_order o _⟩

/-- Witness for the C1 theorem at the two-service definition `dW`. -/
theorem build_order_topological_and_down_reverse_witness :
    (dW.build_deployment_order ["db", "web"]).2 = none ∧
    (dW.build_deployment_order ["db", "web"]).1.runtime_config.deployment_order.Perm
      dW.get_service_names ∧
    (∀ a b, dW.DependsOn a b →
      appearsBefore
        (dW.build_deployment_order ["db", "web"]).1.runtime_config.deployment_order b a) ∧
    teardownServices
        (Pyo3Stack.down okOracle ⟨(dW.build_deployment_order ["db", "web"]).1, {}⟩).2.2
      = (dW.build_deployment_order ["db", "web"]).1.runtime_config.deployment_order.reverse :=
  build_order_topological_and_down_reverse dW ["db", "web"] okOracle {}
    (List.isPerm_iff.1 (by decide)) (by decide) (by decide)
    (acyclic_of_rank dW rankW (by decide))
    (fun h => absurd h (by decide))

/-- C2 counterexample: `dSelfMissing` has a cycle (`a` depends on itself),
yet `build_deployment_order` fails with the missing-dependency message for
`x`, not a message naming a circular dependency. -/
theorem cycle_error_not_circular_message :
    dSelfMissing.HasCycle ∧
    (dSelfMissing.build_deployment_order ["a"]).2
      = some (DockerPyo3Error.Configuration (ConfigMsg.missingDep "a" "x")) ∧
    (dSelfMissing.build_deployment_order ["a"]).2
      ≠ some (DockerPyo3Error.Configuration ConfigMsg.circularDependency) := by
  refine ⟨⟨"a", Relation.TransGen.single ?_⟩, by decide, by decide⟩
  show ("a" : String) ∈ dSelfMissing.depsOf "a"
  decide

/-- C2 amended: for every definition (unique keys, any iteration order)
whose `depends_on` graph contains a cycle, `build_deployment_order` fails
with a `Configuration` error and the stored `deployment_order` is left
unchanged, never partially computed; the message names the circular
dependency whenever every referenced dependency is defined (otherwise the
earlier missing-dependency check reports first). -/
theorem build_cycle_configuration_error (d : StackDefinition) (σ : List String)
    (hperm : σ.Perm d.get_service_names) (hnd : d.get_service_names.Nodup)
    (hcyc : d.HasCycle) :
    (d.build_deployment_order σ).1 = d ∧
    ∃ m, (d.build_deployment_order σ).2 = some (DockerPyo3Error.Configuration m) ∧
      (d.WellFormedDeps → m = ConfigMsg.circularDependency) :=
  build_deployment_order_cycle d σ hperm hnd hcyc

/-- Witness for the C2 theorem at the mutual two-service cycle `dCycW`. -/
theorem build_cycle_configuration_error_witness :
    (dCycW.build_deployment_order ["service1", "service2"]).1 = dCycW ∧
    ∃ m, (dCycW.build_deployment_order ["service1", "service2"]).2
        = some (DockerPyo3Error.Configuration m) ∧
      (dCycW.WellFormedDeps → m = ConfigMsg.circularDependency) :=
  build_cycle_configuration_error dCycW ["service1", "service2"]
    (List.isPerm_iff.1 (by decide)) (by decide)
    ⟨"service1",
      Relation.TransGen.head
        (show ("service2" : String) ∈ dCycW.depsOf "service1" by decide)
        (Relation.TransGen.single
          (show ("service1" : String) ∈ dCycW.depsOf "service2" by decide))⟩

/-- C3: the Kahn queue is seeded by iterating a freshly built randomised
`HashMap`, so two runs of `build_deployment_order` on the unchanged
definition `dTie` (two services of equal in-degree) may see different
iteration orders and then produce different deployment sequences. -/
theorem build_order_depends_on_seed_order :
    List.Perm ["a", "b"] dTie.get_service_names ∧
    List.Perm ["b", "a"] dTie.get_service_names ∧
    (dTie.build_deployment_order ["a", "b"]).1.runtime_config.deployment_order = ["a", "b"] ∧
    (dTie.build_deployment_order ["b", "a"]).1.runtime_config.deployment_order = ["b", "a"] ∧
    (dTie.build_deployment_order ["a", "b"]).1.runtime_config.deployment_order
      ≠ (dTie.build_deployment_order ["b", "a"]).1.runtime_config.deployment_order :=
  ⟨List.isPerm_iff.1 (by decide), List.isPerm_iff.1 (by decide),
   by decide, by decide, by decide⟩

/-- C4 counterexample: adding service `b` with undefined dependency `c` to
the valid one-service definition `dOne` returns an error, yet the mutation
is not rejected as a whole — the service map now contains `b` while the
stale order `["a"]` (not mentioning `b`) remains. -/
theorem add_service_not_atomic_counterexample :
    ((dOne.add_service ["a", "b"] "b" { depends_on := ["c"] }).2).isSome = true ∧
    (dOne.add_service ["a", "b"] "b" { depends_on := ["c"] }).1 ≠ dOne ∧
    (dOne.add_service ["a", "b"] "b" { depends_on := ["c"] }).1.get_service_names
      = ["a", "b"] ∧
    (dOne.add_service ["a", "b"] "b" { depends_on := ["c"] }).1.runtime_config.deployment_order
      = ["a"] :=
  ⟨by decide, by decide, by decide, by decide⟩

/-- C4 amended: when a structural change would make the dependency graph
invalid, the stored `deployment_order` is left at its previous value (never
partially computed), but the mutation is not rolled back: a failing
`add_service` leaves the new service inserted, and `remove_service` never
revalidates at all. -/
theorem add_remove_not_atomic (σ : List String) (d : StackDefinition)
    (n : String) (s : ComposeService) :
    ((d.add_service σ n s).2.isSome = true →
      (d.add_service σ n s).1 = d.set_service n s ∧
      (d.add_service σ n s).1.runtime_config.deployment_order
        = d.runtime_config.deployment_order) ∧
    (d.remove_service n).1.runtime_config.deployment_order
      = d.runtime_config.deployment_order := by
  constructor
  · intro h
    have h1 : ((d.set_service n s).build_deployment_order σ).1 = d.set_service n s :=
      build_err_unchanged σ (d.set_service n s) h
    refine ⟨h1, ?_⟩
    show ((d.set_service n s).build_deployment_order σ).1.runtime_config.deployment_order = _
    rw [h1]
    rfl
  · rcases hidx : d.compose.services.findIdx? (fun p => p.1 == n) with _ | i
    · rw [StackDefinition.remove_service, hidx]
    · rw [StackDefinition.remove_service, hidx]

/-- Witness for the C4 amended theorem at the `dOne` failing insertion. -/
theorem add_remove_not_atomic_witness :
    ((dOne.add_service ["a", "b"] "b" { depends_on := ["c"] }).1
        = dOne.set_service "b" { depends_on := ["c"] } ∧
      (dOne.add_service ["a", "b"] "b" { depends_on := ["c"] }).1.runtime_config.deployment_order
        = dOne.runtime_config.deployment_order) ∧
    (dOne.remove_service "b").1.runtime_config.deployment_order
      = dOne.runtime_config.deployment_order :=
  ⟨(add_remove_not_atomic ["a", "b"] dOne "b" { depends_on := ["c"] }).1 (by decide),
   (add_remove_not_atomic ["a", "b"] dOne "b" { depends_on := ["c"] }).2⟩

/-- C5 counterexample: deploying `sUp` against an oracle whose container
creation fails for service `b` (after `a` deployed) returns an error and
leaves the containers of `a` tracked, but the status is left at `Deploying`
— not at `PartiallyRunning` (nor `Failed`), as the claim requires. -/
theorem up_failure_leaves_deploying :
    ((sUp.up failBOracle).2).isSome = true ∧
    (alookup "a" (sUp.up failBOracle).1.state.containers).isSome = true ∧
    (sUp.up failBOracle).1.state.status = StackStatus.Deploying ∧
    (sUp.up failBOracle).1.state.status ≠ StackStatus.PartiallyRunning ∧
    (sUp.up failBOracle).1.state.status ≠ StackStatus.Failed :=
  ⟨by decide, by decide, by decide, by decide, by decide⟩

/-- C5 amended: `up` sets the status to `Deploying` up front and to
`Running` only after every phase succeeded; on any error the status is left
at `Deploying` (the code never assigns `PartiallyRunning` or `Failed`), and
already-created resources are indeed not rolled back: every container entry
tracked before the call is still tracked after it, whether or not `up`
failed. -/
theorem up_status_deploying_on_error (o : DockerOracle) (s : Pyo3Stack) :
    ((s.up o).2 = none → (s.up o).1.state.status = StackStatus.Running) ∧
    ((s.up o).2.isSome = true → (s.up o).1.state.status = StackStatus.Deploying) ∧
    (∀ k, (alookup k s.state.containers).isSome = true →
      (alookup k (s.up o).1.state.containers).isSome = true) :=
  up_cases o s

/-- Witness for the C5 amended theorem: a successful `up` of `sUp` ends
`Running`, the failed `up` against `failBOracle` ends `Deploying`, and the
pre-tracked container entry `x` survives the failed call. -/
theorem up_status_deploying_on_error_witness :
    (sUp.up okOracle).1.state.status = StackStatus.Running ∧
    ((({ sUp with state := { containers := [("x", ["c0"])] } } : Pyo3Stack).up
        failBOracle).1.state.status = StackStatus.Deploying) ∧
    (alookup "x" (({ sUp with state := { containers := [("x", ["c0"])] } } : Pyo3Stack).up
        failBOracle).1.state.containers).isSome = true :=
  ⟨(up_status_deploying_on_error okOracle sUp).1 (by decide),
   (up_status_deploying_on_error failBOracle
      { sUp with state := { containers := [("x", ["c0"])] } }).2.1 (by decide),
   (up_status_deploying_on_error failBOracle
      { sUp with state := { containers := [("x", ["c0"])] } }).2.2 "x" (by decide)⟩

/-- C6: for every oracle and stack, `down` returns success, resets the
runtime state to its default value (empty containers/networks/volumes,
status `NotDeployed`), and preserves the definition — individual removal
errors never fail the operation (the oracle results are ignored by
construction, visible in `down` returning no error for any oracle). -/
theorem down_resets_state (o : DockerOracle) (s : Pyo3Stack) :
    (Pyo3Stack.down o s).2.1 = none ∧
    (Pyo3Stack.down o s).1.state = ({} : StackState) ∧
    (Pyo3Stack.down o s).1.definition = s.definition := by
  refine ⟨rfl, rfl, ?_⟩
  show (((downGo o s.definition.runtime_config.deployment_order.reverse s).1.remove_networks
      o).1.remove_volumes o).1.definition = s.definition
  exact downGo_definition o s.definition.runtime_config.deployment_order.reverse s

/-- C7: the image/build mutual exclusion does NOT hold after every builder
operation.  `image` and `build_context` each clear the other field as
documented, but `build_arg` (likewise `build_target`, `build_cache_from`)
called on a service that has an image and no build config creates a default
build config without clearing `image`, so
`Service::new("app").image("nginx").build_arg("K","V")` ends with both
`image` and `build` set. -/
theorem builder_breaks_image_build_exclusion :
    (∀ (s : SvcSimple.Service) (i : String),
      ((s.image_ i).image = some i ∧ (s.image_ i).build = none)) ∧
    (∀ (s : SvcSimple.Service) (c : String),
      ((s.build_context c).image = none ∧ (s.build_context c).build.isSome = true)) ∧
    ((((SvcSimple.Service.new "app").image_ "nginx").build_arg "K" "V").image.isSome = true ∧
      (((SvcSimple.Service.new "app").image_ "nginx").build_arg "K" "V").build.isSome = true) ∧
    ((((SvcSimple.Service.new "app").image_ "nginx").build_target "prod").image.isSome = true ∧
      (((SvcSimple.Service.new "app").image_ "nginx").build_target "prod").build.isSome = true) ∧
    ((((SvcSimple.Service.new "app").image_ "nginx").build_cache_from "c").image.isSome = true ∧
      (((SvcSimple.Service.new "app").image_ "nginx").build_cache_from "c").build.isSome
        = true) :=
  ⟨fun _ _ => ⟨rfl, rfl⟩, fun _ _ => ⟨rfl, rfl⟩,
   ⟨by decide, by decide⟩, ⟨by decide, by decide⟩, ⟨by decide, by decide⟩⟩

/-- C8: scaling down is prefix-preserving.  After a successful
`scale(svc, n)` the tracked list `L` for `svc` has length `n`; for every
`m < n` a second `scale(svc, m)` succeeds, leaves exactly `L.take m` tracked
(a prefix of `L`), and stops then force-removes the popped containers from
the end of the list, highest replica first; and repeating `scale(svc, n)`
with the same `n` is an exact no-op (state unchanged, no error, no docker
calls). -/
theorem scale_down_prefix_and_noop (o : DockerOracle) (stk : Pyo3StackM)
    (svc : String) (n : Nat)
    (hreg : (stk.registered_services.any fun p => p.1 == svc) = true)
    (hok : (stk.scale o svc n).2.1 = none) :
    ((alookup svc (stk.scale o svc n).1.state.containers).getD []).length = n ∧
    (∀ m, m < n →
      ((stk.scale o svc n).1.scale o svc m).2.1 = none ∧
      alookup svc ((stk.scale o svc n).1.scale o svc m).1.state.containers
        = some (((alookup svc (stk.scale o svc n).1.state.containers).getD []).take m) ∧
      List.IsPrefix
        (((alookup svc (stk.scale o svc n).1.state.containers).getD []).take m)
        ((alookup svc (stk.scale o svc n).1.state.containers).getD []) ∧
      ((stk.scale o svc n).1.scale o svc m).2.2
        = ((((alookup svc (stk.scale o svc n).1.state.containers).getD []).drop m).reverse.flatMap
            (fun cid => [ScaleAction.stop cid, ScaleAction.removeForce cid]))) ∧
    (stk.scale o svc n).1.scale o svc n = ((stk.scale o svc n).1, none, []) := by
  obtain ⟨hlen, hregs, hname⟩ := scale_ok_length o stk svc n hreg hok
  have hreg1 : ((stk.scale o svc n).1.registered_services.any fun p => p.1 == svc) = true := by
    rw [hregs]
    exact hreg
  refine ⟨hlen, ?_, ?_⟩
  · intro m hm
    rcases h2 : alookup svc (stk.scale o svc n).1.state.containers with _ | L
    · exfalso
      rw [h2] at hlen
      simp only [Option.getD_none, List.length_nil] at hlen
      omega
    · have hmL : m < L.length := by
        rw [h2] at hlen
        simp only [Option.getD_some] at hlen
        omega
      simp only [Option.getD_some]
      rw [scale_down_eq o (stk.scale o svc n).1 svc m L hreg1 h2 hmL]
      refine ⟨rfl, ?_, ?_, rfl⟩
      · show alookup svc (indexMapInsert (stk.scale o svc n).1.state.containers svc (L.take m))
            = some (L.take m)
        exact alookup_indexMapInsert_self _ _ _
      · exact List.take_prefix m L
  · generalize hstk1 : (stk.scale o svc n).1 = stk1 at hlen hreg1 ⊢
    simp only [Pyo3StackM.scale]
    rw [if_neg (scale_registered_ne stk1 svc hreg1), if_pos hlen.symm]

/-- Witness for the C8 theorem: `stkWeb` scaled to 3 replicas, then scaled
down to 2 (a prefix of the 3 remains) and re-scaled to 3 (a no-op). -/
theorem scale_down_prefix_and_noop_witness :
    ((alookup "web" (stkWeb.scale okOracle "web" 3).1.state.containers).getD []).length = 3 ∧
    ((stkWeb.scale okOracle "web" 3).1.scale okOracle "web" 2).2.1 = none ∧
    alookup "web" ((stkWeb.scale okOracle "web" 3).1.scale okOracle "web" 2).1.state.containers
      = some (((alookup "web" (stkWeb.scale okOracle "web" 3).1.state.containers).getD
          []).take 2) ∧
    (stkWeb.scale okOracle "web" 3).1.scale okOracle "web" 3
      = ((stkWeb.scale okOracle "web" 3).1, none, []) :=
  have h := scale_down_prefix_and_noop okOracle stkWeb "web" 3 (by decide) (by decide)
  ⟨h.1, (h.2.1 2 (by decide)).1, (h.2.1 2 (by decide)).2.1, h.2.2⟩

/-- C9: in the network phase of mod.rs `up`, a creation failure whose
message contains `already exists` is treated as success — `up` proceeds
exactly as if creation had succeeded, with the network's name recorded as
its identifier under the key `default` — while any other creation error is
fatal, returned with the stack unchanged. -/
theorem network_exists_treated_as_success (o : DockerOracle) (σ : List String)
    (stk : Pyo3StackM) (e : String)
    (he : o.createNetwork (stk.name ++ "_default") = .error e) :
    (containsSubstr e "already exists" = true →
      stk.up o σ = stk.upAfterNetwork o σ (stk.name ++ "_default") ∧
      alookup "default" (stk.up o σ).1.state.networks = some (stk.name ++ "_default")) ∧
    (containsSubstr e "already exists" = false →
      stk.up o σ = (stk, some (.docker e))) := by
  constructor
  · intro hc
    have hup : stk.up o σ = stk.upAfterNetwork o σ (stk.name ++ "_default") := by
      simp only [Pyo3StackM.up, he]
      rw [if_pos hc]
    refine ⟨hup, ?_⟩
    rw [hup]
    exact upAfterNetwork_networks o σ stk (stk.name ++ "_default")
  · intro hc
    simp only [Pyo3StackM.up, he]
    rw [if_neg (show ¬(containsSubstr e "already exists" = true) by
      rw [hc]; exact fun h => Bool.noConfusion h)]

/-- Witness for the C9 theorem: `netExistsOracle` reports the `t_default`
network as already existing and `up` proceeds, recording the name as the
identifier; `netFailOracle` reports `permission denied` and `up` fails with
that error, leaving the stack unchanged. -/
theorem network_exists_treated_as_success_witness :
    (stkWeb.up netExistsOracle ["web"]
        = stkWeb.upAfterNetwork netExistsOracle ["web"] ("t" ++ "_default") ∧
      alookup "default" (stkWeb.up netExistsOracle ["web"]).1.state.networks
        = some ("t" ++ "_default")) ∧
    stkWeb.up netFailOracle ["web"] = (stkWeb, some (.docker "permission denied")) :=
  ⟨(network_exists_treated_as_success netExistsOracle ["web"] stkWeb
      "network t_default already exists. reuse it" rfl).1 (by decide),
   (network_exists_treated_as_success netFailOracle ["web"] stkWeb
      "permission denied" rfl).2 (by decide)⟩

/-- C10: registering a service whose name is already present fails with the
`already registered` error naming the service and the stack, leaving the
registered-services map unchanged; a fresh name appends exactly that one
service under its own name. -/
theorem register_service_duplicate_rejected (stk : Pyo3StackM) (svc : SvcSimple.Service) :
    ((stk.registered_services.any fun p => p.1 == svc.name) = true →
      stk.register_service svc
        = (stk, some (.valueError (.alreadyRegistered svc.name stk.name)))) ∧
    ((stk.registered_services.any fun p => p.1 == svc.name) = false →
      stk.register_service svc
        = ({ stk with registered_services := stk.registered_services ++ [(svc.name, svc)] },
           none)) := by
  constructor
  · intro h
    simp only [Pyo3StackM.register_service]
    rw [if_pos h]
  · intro h
    simp only [Pyo3StackM.register_service]
    rw [if_neg (show ¬((stk.registered_services.any fun p => p.1 == svc.name) = true) by
      rw [h]; exact fun hx => Bool.noConfusion hx)]

/-- Witness for the C10 theorem: `stkWeb` rejects a second `web` service
(naming `web` and stack `t`) and accepts a fresh `db` service. -/
theorem register_service_duplicate_rejected_witness :
    stkWeb.register_service { SvcSimple.Service.new "web" with image := some "redis" }
      = (stkWeb, some (.valueError (.alreadyRegistered "web" "t"))) ∧
    stkWeb.register_service (SvcSimple.Service.new "db")
      = ({ stkWeb with registered_services :=
            stkWeb.registered_services ++ [("db", SvcSimple.Service.new "db")] }, none) :=
  ⟨(register_service_duplicate_rejected stkWeb
      { SvcSimple.Service.new "web" with image := some "redis" }).1 (by decide),
   (register_service_duplicate_rejected stkWeb (SvcSimple.Service.new "db")).2 (by decide)⟩

end DockerPyo3
